import Mathlib

/-!
# Verification of the Flipkart sales-report reconciliation-and-rollup engine

Shallow embedding of `src/app1.py` (a pandas/streamlit script).  Tables are
modelled as a list of column names plus a list of rows of cells; pandas
`NaN` is the `Cell.null` constructor.  The enrichment pipeline
(lines 64–189 of the source) is `run`; the two rollup tabs
(lines 317–443) are modelled over the enriched-row type `ERow`.

Modelling notes, recorded where they matter:
* numbers are exact rationals (`ℚ`); the source's float sums are exact here,
  so "equal within tolerance 1e-6" claims are settled by exact equality;
* `astype(str)` on a `NaN` cell yields the string `"nan"`, as pandas does;
  the string rendering of a numeric cell is approximated by `toString`
  (no claim depends on it);
* `pd.to_numeric(errors="coerce")` is modelled by a decimal-literal parser
  (sign, digits, optional fraction); no claim depends on richer parsing;
* pandas' stable lexicographic multi-column sort is modelled by insertion
  sort over the same lexicographic key, with `NaN` ordered last
  (`na_position="last"`), and group keys taken in first-occurrence order
  (the subsequent explicit `sort_values` determines all claim-relevant
  ordering).
-/

/-- A pandas cell: a string, a number, or `NaN`. -/
inductive Cell where
  | str  : String → Cell
  | num  : ℚ → Cell
  | null : Cell
deriving DecidableEq, Repr

/-- `astype(str)` on a single cell; pandas renders `NaN` as `"nan"`. -/
def cellToStr : Cell → String
  | .str s => s
  | .num q => toString q
  | .null => "nan"

/-- Python `str.strip` whitespace test (ASCII whitespace). -/
def isSpaceCh (c : Char) : Bool :=
  c.toNat == 32 || c.toNat == 9 || c.toNat == 10 || c.toNat == 13 ||
    c.toNat == 11 || c.toNat == 12

/-- `str.strip()`: drop whitespace from both ends.  (A char-list
implementation; the kernel cannot evaluate `String.trim`.) -/
def strTrim (s : String) : String :=
  ⟨((s.data.dropWhile isSpaceCh).reverse.dropWhile isSpaceCh).reverse⟩

/-- ASCII `str.lower()` of one character, as a code point. -/
def lowerNat (c : Char) : ℕ :=
  if 65 ≤ c.toNat ∧ c.toNat ≤ 90 then c.toNat + 32 else c.toNat

/-- Does the second list start with the first? -/
def hasLead : List ℕ → List ℕ → Bool
  | [], _ => true
  | _ :: _, [] => false
  | a :: as, b :: bs => a == b && hasLead as bs

/-- Does the pattern occur anywhere in the list? -/
def hasSub (pat : List ℕ) : List ℕ → Bool
  | [] => hasLead pat []
  | l@(_ :: rest) => hasLead pat l || hasSub pat rest

/-- `astype(str).str.strip()` applied to one cell (source lines 74–75). -/
def stripCell (c : Cell) : Cell := .str (strTrim (cellToStr c))

/-- A pandas DataFrame: column names and rows of cells. -/
structure Table where
  cols : List String
  rows : List (List Cell)
deriving DecidableEq, Repr

/-- The cell of row `r` (laid out by `cols`) in the column named `c`;
`NaN` when the column is absent.  Duplicate column names resolve to the
first occurrence. -/
def cellAt (cols : List String) (r : List Cell) (c : String) : Cell :=
  match cols.findIdx? (· == c) with
  | some j => r.getD j .null
  | none   => .null

/-- Cell of table `t` at column `c`, row `i` (none iff the row index is
out of range). -/
def getCell (t : Table) (c : String) (i : ℕ) : Option Cell :=
  (t.rows.get? i).map (fun r => cellAt t.cols r c)

/-- All values of a column, top to bottom. -/
def colVals (t : Table) (c : String) : List Cell :=
  t.rows.map (fun r => cellAt t.cols r c)

/-- `df[c] = df[c].apply(f)`: rewrite one column in place (no-op when the
column is absent; the source always checks presence first). -/
def mapCol (c : String) (f : Cell → Cell) (t : Table) : Table :=
  match t.cols.findIdx? (· == c) with
  | some j => ⟨t.cols, t.rows.map (fun r => r.set j (f (r.getD j .null)))⟩
  | none   => t

/-- `df.rename(columns={old: new})`. -/
def renameCol (old new : String) (t : Table) : Table :=
  ⟨t.cols.map (fun c => if c = old then new else c), t.rows⟩

/-- `df[c] = vs`: overwrite an existing column or append a new one. -/
def setCol (t : Table) (c : String) (vs : List Cell) : Table :=
  match t.cols.findIdx? (· == c) with
  | some j => ⟨t.cols, (t.rows.zip vs).map (fun p => p.1.set j p.2)⟩
  | none   => ⟨t.cols ++ [c], (t.rows.zip vs).map (fun p => p.1 ++ [p.2])⟩

/-- `df[cs]`: column selection/reordering by name. -/
def selectCols (cs : List String) (t : Table) : Table :=
  ⟨cs, t.rows.map (fun r => cs.map (fun c => cellAt t.cols r c))⟩

/-- `df.drop(columns=[c], errors="ignore")`. -/
def dropCol (c : String) (t : Table) : Table :=
  match t.cols.findIdx? (· == c) with
  | some j => ⟨t.cols.eraseIdx j, t.rows.map (fun r => r.eraseIdx j)⟩
  | none   => t

/-- First-occurrence-wins deduplication by a key function, with an
accumulator of keys already seen (`drop_duplicates(keep="first")`). -/
def dedupBy {α κ : Type} [DecidableEq κ] (f : α → κ) : List κ → List α → List α
  | _, [] => []
  | seen, x :: xs =>
    if f x ∈ seen then dedupBy f seen xs
    else x :: dedupBy f (f x :: seen) xs

/-- `df.drop_duplicates(subset=[c], keep="first")`. -/
def dropDup (c : String) (t : Table) : Table :=
  match t.cols.findIdx? (· == c) with
  | some j => ⟨t.cols, dedupBy (fun r => r.getD j .null) [] t.rows⟩
  | none   => t

namespace DedupBy

variable {α κ : Type} [DecidableEq κ] (f : α → κ)

theorem mem_map_iff (l : List α) (k : κ) :
    ∀ (seen : List κ),
      (k ∈ (dedupBy f seen l).map f ↔ k ∈ l.map f ∧ k ∉ seen) := by
  induction l with
  | nil => intro seen; simp [dedupBy]
  | cons x xs ih =>
    intro seen
    by_cases hx : f x ∈ seen
    · have hd : dedupBy f seen (x :: xs) = dedupBy f seen xs := by
        simp [dedupBy, hx]
      rw [hd, ih]
      simp only [List.map_cons, List.mem_cons]
      constructor
      · rintro ⟨h1, h2⟩; exact ⟨Or.inr h1, h2⟩
      · rintro ⟨h1 | h1, h2⟩
        · subst h1; exact absurd hx h2
        · exact ⟨h1, h2⟩
    · have hd : dedupBy f seen (x :: xs) = x :: dedupBy f (f x :: seen) xs := by
        simp [dedupBy, hx]
      rw [hd]
      simp only [List.map_cons, List.mem_cons, ih, List.mem_cons]
      constructor
      · rintro (rfl | ⟨h1, h2⟩)
        · exact ⟨Or.inl rfl, hx⟩
        · exact ⟨Or.inr h1, fun hs => h2 (Or.inr hs)⟩
      · rintro ⟨rfl | h1, h2⟩
        · exact Or.inl rfl
        · by_cases hkx : k = f x
          · exact Or.inl hkx
          · refine Or.inr ⟨h1, ?_⟩
            rintro (h | h)
            · exact hkx h
            · exact h2 h

theorem nodup_map (l : List α) :
    ∀ (seen : List κ), ((dedupBy f seen l).map f).Nodup := by
  induction l with
  | nil => intro seen; simp [dedupBy]
  | cons x xs ih =>
    intro seen
    by_cases hx : f x ∈ seen
    · simpa [dedupBy, hx] using ih seen
    · simp only [dedupBy, if_neg hx, List.map_cons, List.nodup_cons]
      refine ⟨fun hmem => ?_, ih _⟩
      rw [mem_map_iff] at hmem
      exact hmem.2 (List.mem_cons_self _ _)

theorem eq_self (l : List α) :
    ∀ (seen : List κ), (l.map f).Nodup → (∀ x ∈ l, f x ∉ seen) →
      dedupBy f seen l = l := by
  induction l with
  | nil => intro seen _ _; rfl
  | cons x xs ih =>
    intro seen hnd hdisj
    have hx : f x ∉ seen := hdisj x (List.mem_cons_self _ _)
    simp only [dedupBy, if_neg hx]
    congr 1
    have hnd1 : f x ∉ xs.map f := (List.nodup_cons.mp (by simpa using hnd)).1
    refine ih (f x :: seen) (by simpa using hnd.of_cons) ?_
    intro y hy hmem
    rcases List.mem_cons.mp hmem with h | h
    · exact hnd1 (h ▸ List.mem_map_of_mem f hy)
    · exact hdisj y (List.mem_cons_of_mem _ hy) h

theorem idem (l : List α) :
    dedupBy f [] (dedupBy f [] l) = dedupBy f [] l :=
  eq_self f _ [] (nodup_map f l []) (by simp)

theorem find?_eq (l : List α) (k : κ) :
    ∀ (seen : List κ), k ∉ seen →
      (dedupBy f seen l).find? (fun x => f x == k) =
        l.find? (fun x => f x == k) := by
  induction l with
  | nil => intro seen _; rfl
  | cons x xs ih =>
    intro seen hk
    simp only [dedupBy]
    by_cases hfx : f x = k
    · have hx : f x ∉ seen := by rw [hfx]; exact hk
      rw [if_neg hx, List.find?_cons_of_pos _ (by simp [hfx]),
        List.find?_cons_of_pos _ (by simp [hfx])]
    · by_cases hx : f x ∈ seen
      · rw [if_pos hx, ih seen hk, List.find?_cons_of_neg _ (by simp [hfx])]
      · rw [if_neg hx, List.find?_cons_of_neg _ (by simp [hfx]),
          List.find?_cons_of_neg _ (by simp [hfx])]
        refine ih _ ?_
        simp only [List.mem_cons]
        rintro (h | h)
        · exact hfx h.symm
        · exact hk h

/-- When the mapped keys are nodup, any key occurs in at most one element:
filtering by an equality test yields at most one row. -/
theorem length_filter_le_one {l : List α} (hnd : (l.map f).Nodup) (k : κ) :
    (l.filter (fun x => f x == k)).length ≤ 1 := by
  induction l with
  | nil => simp
  | cons x xs ih =>
    simp only [List.map_cons, List.nodup_cons] at hnd
    by_cases hfx : f x = k
    · have hnone : xs.filter (fun x => f x == k) = [] := by
        rw [List.filter_eq_nil_iff]
        intro y hy hk2
        have h1 : f y = k := by simpa using hk2
        have h2 : f x ∈ xs.map f := by
          rw [hfx, ← h1]; exact List.mem_map_of_mem f hy
        exact hnd.1 h2
      simp [List.filter_cons, hfx, hnone]
    · have hb : (f x == k) = false := by simp [hfx]
      simp only [List.filter_cons, hb, Bool.false_eq_true, if_false]
      exact ih hnd.2

end DedupBy

/-! ## Numeric coercion (`pd.to_numeric(errors="coerce")` and `fillna`) -/

/-- Digits of a decimal literal, as a natural number. -/
def digitsToNat? (cs : List Char) : Option ℕ :=
  cs.foldl (fun acc c =>
    acc.bind (fun n =>
      if 48 ≤ c.toNat ∧ c.toNat ≤ 57 then some (10 * n + (c.toNat - 48))
      else none))
    (some 0)

/-- Parse a decimal literal `[+-]?digits(.digits)?`, the fragment of
`pd.to_numeric` string parsing the pipeline can meet. -/
def parseDecimal? (s : String) : Option ℚ :=
  let t := strTrim s
  let p : ℚ × List Char :=
    match t.toList with
    | '-' :: rest => (-1, rest)
    | '+' :: rest => (1, rest)
    | cs => (1, cs)
  let ip := p.2.takeWhile (· ≠ '.')
  match p.2.dropWhile (· ≠ '.') with
  | [] =>
    if ip.isEmpty then none else (digitsToNat? ip).map (fun n => p.1 * n)
  | _ :: frac =>
    if ip.isEmpty && frac.isEmpty then none
    else
      match digitsToNat? ip, digitsToNat? frac with
      | some a, some b => some (p.1 * ((a : ℚ) + (b : ℚ) / (10 ^ frac.length)))
      | _, _ => none

/-- `pd.to_numeric(errors="coerce")` on one cell. -/
def toNumericCell : Cell → Cell
  | .num q => .num q
  | .str s => match parseDecimal? s with | some q => .num q | none => .null
  | .null  => .null

/-- `fillna(0)` on one cell. -/
def fillNum0 : Cell → Cell
  | .null => .num 0
  | c     => c

/-- `fillna("")` on one cell. -/
def fillStrEmpty : Cell → Cell
  | .null => .str ""
  | c     => c

/-! ## Column detection (source lines 84–110, 133–148) -/

/-- `c.lower().startswith(p)` for a lowercase pattern `p`. -/
def lowerStartsWith (p : String) (c : String) : Bool :=
  hasLead (p.data.map Char.toNat) (c.data.map lowerNat)

/-- `sub in c.lower()` for a lowercase pattern `sub`. -/
def lowerContains (sub : String) (c : String) : Bool :=
  hasSub (sub.data.map Char.toNat) (c.data.map lowerNat)

/-- Lines 85–96: the first column whose name starts with "cp"
(case-insensitive), else positional fallback to index 8, else failure. -/
def detectCp (fu : Table) : Except String String :=
  match fu.cols.filter (lowerStartsWith "cp") with
  | c :: _ => .ok c
  | [] =>
    if 8 < fu.cols.length then .ok (fu.cols.getD 8 "")
    else .error "CP column detect nahi ho paya. Please ensure CP se start hota hai."

/-- Lines 101–108: the first column whose name starts with "fns"
(case-insensitive), no positional fallback. -/
def detectFns (fu : Table) : Except String String :=
  match fu.cols.filter (lowerStartsWith "fns") with
  | c :: _ => .ok c
  | [] => .error "❌ FNS column not found in Flipkart PM file. Ensure name begins with 'FNS'."

/-- Lines 134–145: first column whose name contains both "vendor" and
"sku", else positional fallback to index 3, else the last column. -/
def vendorColOf (fu : Table) : String :=
  match fu.cols.filter (fun c => lowerContains "vendor" c && lowerContains "sku" c) with
  | c :: _ => c
  | [] =>
    if 3 < fu.cols.length then fu.cols.getD 3 ""
    else (fu.cols.getLast?).getD ""

/-- Line 147: `key_col = flipkart_unique.columns[1]`. -/
def vendorKeyColOf (fu : Table) : String := fu.cols.getD 1 ""

/-- `series = df.set_index(kc)[vc]; series.get(k)`: the `vc`-value of the
first row whose `kc`-cell equals `k`, `NaN` when there is none.  This is
the lookup `Series.map` performs per element (the source guards the
non-unique-index case separately). -/
def lookupSeries (t : Table) (kc vc : String) (k : Cell) : Cell :=
  let kj := (t.cols.findIdx? (· == kc)).getD 0
  match t.rows.find? (fun r => r.getD kj .null == k) with
  | some r => cellAt t.cols r vc
  | none   => .null

/-- `lt.merge(rt, left_on=lk, right_on=rk, how="left")`: every left row
appears once per matching right row, or once padded with `NaN` when it has
no match (column-name suffixing on collision is outside the model; the
pipeline's column sets are disjoint). -/
def leftMerge (lt rt : Table) (lk rk : String) : Table :=
  let lj := (lt.cols.findIdx? (· == lk)).getD 0
  let rj := (rt.cols.findIdx? (· == rk)).getD 0
  ⟨lt.cols ++ rt.cols,
    lt.rows.flatMap (fun r =>
      match rt.rows.filter (fun s => s.getD rj .null == r.getD lj .null) with
      | [] => [r ++ rt.cols.map (fun _ => Cell.null)]
      | ms => ms.map (fun s => r ++ s))⟩

/-! ## The enrichment pipeline (source lines 64–189) -/

/-- Line 74: trim the catalog key column. -/
def flipkartStripped (fl : Table) : Table := mapCol "Flipkart Sku Name" stripCell fl

/-- Line 75: trim the transaction key column. -/
def topStripped (top : Table) : Table := mapCol "SKU ID" stripCell top

/-- Lines 78–79: rename a pre-existing transaction `Brand` column. -/
def topPrepared (top : Table) : Table :=
  let t := topStripped top
  if "Brand" ∈ t.cols then renameCol "Brand" "Brand1" t else t

/-- Line 82: the key-deduplicated catalog. -/
def flipkartUnique (fl : Table) : Table :=
  dropDup "Flipkart Sku Name" (flipkartStripped fl)

/-- Lines 116–123: the left join plus `Brand Manager → Manager` rename and
drop of the joined key column. -/
def mergedTable (fl top : Table) : Table :=
  dropCol "Flipkart Sku Name" (renameCol "Brand Manager" "Manager"
    (leftMerge (topPrepared top)
      (selectCols ["Flipkart Sku Name", "Brand Manager", "Brand"]
        (flipkartUnique fl))
      "SKU ID" "Flipkart Sku Name"))

/-- Lines 126–127: the cost column. -/
def withCost (fl : Table) (cpCol : String) (t : Table) : Table :=
  setCol t "cost" ((colVals t "SKU ID").map
    (fun k => fillNum0 (toNumericCell
      (lookupSeries (flipkartUnique fl) "Flipkart Sku Name" cpCol k))))

/-- Lines 130–131: the FNS column. -/
def withFns (fl : Table) (fnsCol : String) (t : Table) : Table :=
  setCol t "FNS" ((colVals t "SKU ID").map
    (fun k => fillStrEmpty
      (lookupSeries (flipkartUnique fl) "Flipkart Sku Name" fnsCol k)))

/-- Lines 150–151: the Vendor SKU Code column, keyed on the catalog's
column at position 1, then `astype(str).fillna("")`. -/
def withVendor (fl : Table) (t : Table) : Table :=
  let fu := flipkartUnique fl
  setCol t "Vendor SKU Code" ((colVals t "SKU ID").map
    (fun k => fillStrEmpty (Cell.str (cellToStr
      (lookupSeries fu (vendorKeyColOf fu) (vendorColOf fu) k)))))

/-- Python `list.insert`: past-the-end positions append. -/
def pyInsert (n : ℕ) (a : α) (l : List α) : List α :=
  if l.length ≤ n then l ++ [a] else l.insertIdx n a

/-- Lines 157–163: `idx = cols.index(target);
cols.insert(idx + 1, cols.pop(cols.index(mover)))` guarded on presence. -/
def popInsertAfter (cols : List String) (target mover : String) : List String :=
  match cols.findIdx? (· == target), cols.findIdx? (· == mover) with
  | some ig, some ic => pyInsert (ig + 1) mover (cols.eraseIdx ic)
  | _, _ => cols

/-- Lines 166–171: remove `Vendor SKU Code` and re-insert it right after
`FNS`. -/
def vendorInsertCols (cols : List String) : List String :=
  if "FNS" ∈ cols ∧ "Vendor SKU Code" ∈ cols then
    let c2 := cols.erase "Vendor SKU Code"
    match c2.findIdx? (· == "FNS") with
    | some i => pyInsert (i + 1) "Vendor SKU Code" c2
    | none => c2
  else cols

/-- Lines 153–171: the presentation column order. -/
def reorderCols (t : Table) : Table :=
  let t1 := selectCols
    (popInsertAfter (popInsertAfter t.cols "Gross Units" "cost") "cost" "FNS") t
  selectCols (vendorInsertCols t1.cols) t1

/-- Line 174: strip whitespace from column names. -/
def stripColNames (t : Table) : Table := ⟨t.cols.map strTrim, t.rows⟩

/-- Lines 177–186: normalize the amount column to `Sales`. -/
def salesStep (t : Table) : Except String Table :=
  if "Sales" ∈ t.cols then .ok t
  else if "Final Sale Amount" ∈ t.cols then
    .ok (renameCol "Final Sale Amount" "Sales" t)
  else if "Final Sales Amount" ∈ t.cols then
    .ok (renameCol "Final Sales Amount" "Sales" t)
  else .error "❌ Sales column nahi mila. Expected 'Final Sale Amount' ya 'Final Sales Amount' Top Products file me."

/-- Lines 188–189: the units column must exist. -/
def unitsCheck (t : Table) : Except String Table :=
  if "Gross Units" ∈ t.cols then .ok t
  else .error "'Gross Units' column required hai analysis ke liye."

/-- The whole enrichment pipeline, source lines 64–189: validations in
source order, key trimming, catalog dedup, column detection, left join,
cost/FNS/vendor enrichment, column reorder, and amount/units checks.  The
result is the enriched table `final_df`. -/
def run (fl top : Table) : Except String Table :=
  if "SKU ID" ∉ top.cols then
    .error "Top Products file me required column missing hai: 'SKU ID'"
  else if "Flipkart Sku Name" ∉ fl.cols then
    .error "Flipkart PM file me 'Flipkart Sku Name' column missing hai."
  else
    match detectCp (flipkartUnique fl) with
    | .error e => .error e
    | .ok cpCol =>
      match detectFns (flipkartUnique fl) with
      | .error e => .error e
      | .ok fnsCol =>
        if ¬ ("Brand Manager" ∈ (flipkartUnique fl).cols ∧
              "Brand" ∈ (flipkartUnique fl).cols) then
          .error "Flipkart PM file me 'Brand Manager' ya 'Brand' column missing hai."
        else if ¬ (colVals (flipkartUnique fl)
            (vendorKeyColOf (flipkartUnique fl))).Nodup then
          .error "Reindexing only valid with uniquely valued Index objects"
        else
          match salesStep (stripColNames (reorderCols (withVendor fl
              (withFns fl fnsCol (withCost fl cpCol (mergedTable fl top)))))) with
          | .error e => .error e
          | .ok t3 => unitsCheck t3

/-! ## The rollup engine (source lines 317–443)

The rollup tabs read only the `Manager`, `Brand`, `FNS`, `Gross Units`,
`Sales` and `cost` columns of the enriched table.  An `ERow` carries those
six fields: `Manager`/`Brand` may be `NaN` (unmatched join rows), `FNS`
is a string after `fillna("")`, and the measures are numeric.  The claims
about the rollups quantify over every enriched input, so the rollup
functions take an arbitrary `List ERow`. -/

/-- One enriched row as seen by the pivots: `Manager`, `Brand`, `FNS`,
`Gross Units`, `Sales`, `cost`. -/
structure ERow where
  manager : Option String
  brand   : Option String
  fns     : String
  gu      : ℚ
  sales   : ℚ
  cost    : ℚ
deriving DecidableEq, Repr

/-- Sum of a measure over the rows satisfying a predicate. -/
def sumOf {α : Type} (m : α → ℚ) (p : α → Bool) (l : List α) : ℚ :=
  ((l.filter p).map m).sum

/-- Distinct values in first-occurrence order (the group keys of a
`groupby`; pandas sorts group keys, but every claim-relevant ordering is
fixed by the explicit `sort_values` that follows). -/
def firstKeys {κ : Type} [DecidableEq κ] (ks : List κ) : List κ :=
  dedupBy id [] ks

/-! ### Tab 5: Brand / FNS pivot (lines 317–374) -/

/-- A row of the Brand/FNS pivot, including the helper `order` column. -/
structure BFRow where
  brand : Option String
  fns   : String
  gu    : ℚ
  sales : ℚ
  cost  : ℚ
  order : ℕ
deriving DecidableEq, Repr

/-- Group key of the detail aggregation. -/
def bfKey (r : ERow) : Option String × String := (r.brand, r.fns)

/-- Lines 323–328: `final_df.groupby(["Brand","FNS"], dropna=False).sum()`,
one DETAIL row per distinct (Brand, FNS) pair, `order = 0`. -/
def baseBF (l : List ERow) : List BFRow :=
  (firstKeys (l.map bfKey)).map (fun k =>
    ⟨k.1, k.2,
      sumOf ERow.gu (fun r => decide (bfKey r = k)) l,
      sumOf ERow.sales (fun r => decide (bfKey r = k)) l,
      sumOf ERow.cost (fun r => decide (bfKey r = k)) l, 0⟩)

/-- Lines 330–332: `base_bf.groupby(["Brand"], as_index=False).sum()` with
pandas' default `dropna=True` (null-brand groups are dropped), labelled
`"<Brand> Total"`, `order = 1`. -/
def brandTotalsBF (l : List ERow) : List BFRow :=
  ((firstKeys ((baseBF l).map BFRow.brand)).filterMap id).map (fun b =>
    ⟨some b, b ++ " Total",
      sumOf BFRow.gu (fun d => decide (d.brand = some b)) (baseBF l),
      sumOf BFRow.sales (fun d => decide (d.brand = some b)) (baseBF l),
      sumOf BFRow.cost (fun d => decide (d.brand = some b)) (baseBF l), 1⟩)

/-- Lines 334–343: the grand-total row, `Brand = ""`,
`FNS = "Grand Total"`, `order = 2`. -/
def grandBF (l : List ERow) : BFRow :=
  ⟨some "", "Grand Total",
    ((baseBF l).map BFRow.gu).sum,
    ((baseBF l).map BFRow.sales).sum,
    ((baseBF l).map BFRow.cost).sum, 2⟩

/-- Lines 345–348: concatenation of detail, subtotal and grand rows. -/
def combinedBF (l : List ERow) : List BFRow :=
  baseBF l ++ brandTotalsBF l ++ [grandBF l]

/-- Line 350: `is_grand = (FNS == "Grand Total")`. -/
def isGrandBF (r : BFRow) : Bool := r.fns == "Grand Total"

/-- `NaN`-last comparison of two group-key values (`na_position="last"`). -/
def optLtB : Option String → Option String → Bool
  | some x, some y => decide (x < y)
  | some _, none   => true
  | none,   _      => false

/-- Lines 352–355: the lexicographic comparison of
`sort_values(by=["is_grand","Brand","order","Gross Units"],
ascending=[True,True,True,False])`. -/
def leBF (a b : BFRow) : Bool :=
  if isGrandBF a ≠ isGrandBF b then decide (isGrandBF a < isGrandBF b)
  else if a.brand ≠ b.brand then optLtB a.brand b.brand
  else if a.order ≠ b.order then decide (a.order < b.order)
  else decide (b.gu ≤ a.gu)

/-- The ordered Brand/FNS pivot (pandas' multi-column `sort_values` is a
stable lexicographic sort; the relabelling to "Sum of …" and the drop of
the helper columns do not move rows). -/
def pivotBF (l : List ERow) : List BFRow :=
  List.insertionSort (fun a b => leBF a b = true) (combinedBF l)

/-! ### Tab 6: Manager / Brand / FNS pivot (lines 376–443) -/

/-- A row of the Manager/Brand/FNS pivot. -/
structure MBFRow where
  manager : Option String
  brand   : Option String
  fns     : String
  gu      : ℚ
  sales   : ℚ
  cost    : ℚ
  order   : ℕ
deriving DecidableEq, Repr

/-- Group key of the detail aggregation. -/
def mbfKey (r : ERow) : Option String × Option String × String :=
  (r.manager, r.brand, r.fns)

/-- Lines 382–387: `groupby(["Manager","Brand","FNS"], dropna=False)`,
`order = 0`. -/
def baseMBF (l : List ERow) : List MBFRow :=
  (firstKeys (l.map mbfKey)).map (fun k =>
    ⟨k.1, k.2.1, k.2.2,
      sumOf ERow.gu (fun r => decide (mbfKey r = k)) l,
      sumOf ERow.sales (fun r => decide (mbfKey r = k)) l,
      sumOf ERow.cost (fun r => decide (mbfKey r = k)) l, 0⟩)

/-- Lines 389–393: `base.groupby(["Manager","Brand"], as_index=False)`
with default `dropna=True` (a group whose Manager or Brand is null is
dropped), labelled `"<Brand> Total"`, `order = 1`. -/
def brandTotalsMBF (l : List ERow) : List MBFRow :=
  ((firstKeys ((baseMBF l).map (fun d => (d.manager, d.brand)))).filterMap
      (fun p => p.1.bind (fun m => p.2.map (fun b => (m, b))))).map (fun mb =>
    ⟨some mb.1, some mb.2, mb.2 ++ " Total",
      sumOf MBFRow.gu (fun d => decide ((d.manager, d.brand) = (some mb.1, some mb.2))) (baseMBF l),
      sumOf MBFRow.sales (fun d => decide ((d.manager, d.brand) = (some mb.1, some mb.2))) (baseMBF l),
      sumOf MBFRow.cost (fun d => decide ((d.manager, d.brand) = (some mb.1, some mb.2))) (baseMBF l), 1⟩)

/-- Lines 395–400: `base.groupby(["Manager"], as_index=False)` with
default `dropna=True`, `Brand = ""`, labelled `"<Manager> Total"`,
`order = 2`. -/
def managerTotalsMBF (l : List ERow) : List MBFRow :=
  ((firstKeys ((baseMBF l).map MBFRow.manager)).filterMap id).map (fun m =>
    ⟨some m, some "", m ++ " Total",
      sumOf MBFRow.gu (fun d => decide (d.manager = some m)) (baseMBF l),
      sumOf MBFRow.sales (fun d => decide (d.manager = some m)) (baseMBF l),
      sumOf MBFRow.cost (fun d => decide (d.manager = some m)) (baseMBF l), 2⟩)

/-- Lines 402–412: the grand-total row, `order = 3`. -/
def grandMBF (l : List ERow) : MBFRow :=
  ⟨some "", some "", "Grand Total",
    ((baseMBF l).map MBFRow.gu).sum,
    ((baseMBF l).map MBFRow.sales).sum,
    ((baseMBF l).map MBFRow.cost).sum, 3⟩

/-- Lines 414–417. -/
def combinedMBF (l : List ERow) : List MBFRow :=
  baseMBF l ++ brandTotalsMBF l ++ managerTotalsMBF l ++ [grandMBF l]

/-- Line 419. -/
def isGrandMBF (r : MBFRow) : Bool := r.fns == "Grand Total"

/-- Lines 421–424: comparison of
`sort_values(by=["is_grand","Manager","Brand","order","Gross Units"],
ascending=[True,True,True,True,False])`. -/
def leMBF (a b : MBFRow) : Bool :=
  if isGrandMBF a ≠ isGrandMBF b then decide (isGrandMBF a < isGrandMBF b)
  else if a.manager ≠ b.manager then optLtB a.manager b.manager
  else if a.brand ≠ b.brand then optLtB a.brand b.brand
  else if a.order ≠ b.order then decide (a.order < b.order)
  else decide (b.gu ≤ a.gu)

/-- The ordered Manager/Brand/FNS pivot. -/
def pivotMBF (l : List ERow) : List MBFRow :=
  List.insertionSort (fun a b => leMBF a b = true) (combinedMBF l)

/-! ## Order-theoretic reading of the sort comparisons -/

/-- Sort key type for tab 5: lexicographic (is_grand, Brand, order,
Gross Units descending), with `NaN` brand sorted last. -/
abbrev BFKeyT := Bool ×ₗ (WithTop String ×ₗ (ℕ ×ₗ ℚᵒᵈ))

/-- Sort key type for tab 6. -/
abbrev MBFKeyT := Bool ×ₗ (WithTop String ×ₗ (WithTop String ×ₗ (ℕ ×ₗ ℚᵒᵈ)))

/-- A group-key value with `NaN` read as `⊤` (pandas `na_position="last"`). -/
def optTop (o : Option String) : WithTop String :=
  match o with
  | none => ⊤
  | some s => (s : WithTop String)

def keyBF (r : BFRow) : BFKeyT :=
  toLex (isGrandBF r, toLex (optTop r.brand, toLex (r.order, OrderDual.toDual r.gu)))

def keyMBF (r : MBFRow) : MBFKeyT :=
  toLex (isGrandMBF r, toLex (optTop r.manager,
    toLex (optTop r.brand, toLex (r.order, OrderDual.toDual r.gu))))

theorem optTop_inj {x y : Option String} : optTop x = optTop y ↔ x = y := by
  cases x <;> cases y <;> simp [optTop]

theorem optLtB_iff (x y : Option String) :
    optLtB x y = true ↔ optTop x < optTop y := by
  cases x <;> cases y <;>
    simp [optLtB, optTop, WithTop.coe_lt_top, WithTop.coe_lt_coe, not_top_lt]

theorem cascade_le {K1 K2 : Type} [LinearOrder K1] [LinearOrder K2]
    {a1 b1 : K1} {a2 b2 : K2} {f g : Bool}
    (hg : g = true ↔ a1 < b1) (hf : f = true ↔ a2 ≤ b2) :
    ((if a1 ≠ b1 then g else f) = true) ↔ toLex (a1, a2) ≤ toLex (b1, b2) := by
  rw [Prod.Lex.le_iff]
  by_cases h : a1 = b1
  · subst h; simp [hf, lt_irrefl]
  · simp [h, hg, hf]

theorem cascade_le' {K1 K2 : Type} [LinearOrder K1] [LinearOrder K2]
    {a1 b1 : K1} {a2 b2 : K2} {c : Prop} [Decidable c] {f g : Bool}
    (hc : c ↔ a1 ≠ b1) (hg : g = true ↔ a1 < b1) (hf : f = true ↔ a2 ≤ b2) :
    ((if c then g else f) = true) ↔ toLex (a1, a2) ≤ toLex (b1, b2) := by
  rw [if_congr hc rfl rfl]
  exact cascade_le hg hf

theorem leBF_iff (a b : BFRow) : leBF a b = true ↔ keyBF a ≤ keyBF b := by
  unfold leBF keyBF
  refine cascade_le' Iff.rfl (by simp) ?_
  refine cascade_le' (not_congr optTop_inj).symm (optLtB_iff _ _) ?_
  refine cascade_le' Iff.rfl (by simp) ?_
  simp

theorem leMBF_iff (a b : MBFRow) : leMBF a b = true ↔ keyMBF a ≤ keyMBF b := by
  unfold leMBF keyMBF
  refine cascade_le' Iff.rfl (by simp) ?_
  refine cascade_le' (not_congr optTop_inj).symm (optLtB_iff _ _) ?_
  refine cascade_le' (not_congr optTop_inj).symm (optLtB_iff _ _) ?_
  refine cascade_le' Iff.rfl (by simp) ?_
  simp

instance : IsTotal BFRow (fun a b => leBF a b = true) :=
  ⟨fun a b => by
    rcases le_total (keyBF a) (keyBF b) with h | h
    · exact Or.inl ((leBF_iff a b).mpr h)
    · exact Or.inr ((leBF_iff b a).mpr h)⟩

instance : IsTrans BFRow (fun a b => leBF a b = true) :=
  ⟨fun a b c hab hbc =>
    (leBF_iff a c).mpr (le_trans ((leBF_iff a b).mp hab) ((leBF_iff b c).mp hbc))⟩

instance : IsTotal MBFRow (fun a b => leMBF a b = true) :=
  ⟨fun a b => by
    rcases le_total (keyMBF a) (keyMBF b) with h | h
    · exact Or.inl ((leMBF_iff a b).mpr h)
    · exact Or.inr ((leMBF_iff b a).mpr h)⟩

instance : IsTrans MBFRow (fun a b => leMBF a b = true) :=
  ⟨fun a b c hab hbc =>
    (leMBF_iff a c).mpr (le_trans ((leMBF_iff a b).mp hab) ((leMBF_iff b c).mp hbc))⟩

theorem pivotBF_sorted (l : List ERow) :
    (pivotBF l).Pairwise (fun a b => keyBF a ≤ keyBF b) :=
  (List.sorted_insertionSort (fun a b => leBF a b = true) (combinedBF l)).imp
    (fun hab => (leBF_iff _ _).mp hab)

theorem pivotMBF_sorted (l : List ERow) :
    (pivotMBF l).Pairwise (fun a b => keyMBF a ≤ keyMBF b) :=
  (List.sorted_insertionSort (fun a b => leMBF a b = true) (combinedMBF l)).imp
    (fun hab => (leMBF_iff _ _).mp hab)

theorem mem_pivotBF {l : List ERow} {x : BFRow} :
    x ∈ pivotBF l ↔ x ∈ combinedBF l :=
  (List.perm_insertionSort _ _).mem_iff

theorem mem_pivotMBF {l : List ERow} {x : MBFRow} :
    x ∈ pivotMBF l ↔ x ∈ combinedMBF l :=
  (List.perm_insertionSort _ _).mem_iff

/-- In a list sorted by a key, an element whose key is strictly below
another element's key appears at a strictly smaller index. -/
theorem sorted_key_index_lt {α K : Type} [LinearOrder K] {key : α → K}
    {l : List α} (hs : l.Pairwise (fun a b => key a ≤ key b))
    {p q : ℕ} (hp : p < l.length) (hq : q < l.length)
    (h : key (l.get ⟨p, hp⟩) < key (l.get ⟨q, hq⟩)) : p < q := by
  by_contra hpq
  push_neg at hpq
  rcases lt_or_eq_of_le hpq with hlt | heq
  · have hle := (List.pairwise_iff_get.mp hs) ⟨q, hq⟩ ⟨p, hp⟩ hlt
    exact absurd (lt_of_lt_of_le h hle) (lt_irrefl _)
  · subst heq
    exact absurd h (lt_irrefl _)

/-- In a list sorted by a key, an element strictly above every other
element is the last one. -/
theorem sorted_key_getLast? {α K : Type} [LinearOrder K] {key : α → K}
    {l : List α} (hs : l.Pairwise (fun a b => key a ≤ key b))
    {x : α} (hx : x ∈ l) (hmax : ∀ y ∈ l, y ≠ x → key y < key x) :
    l.getLast? = some x := by
  have hne : l ≠ [] := List.ne_nil_of_mem hx
  rw [List.getLast?_eq_getLast l hne]
  congr 1
  by_contra hzx
  have hz : l.getLast hne ∈ l := List.getLast_mem hne
  have hklt := hmax _ hz hzx
  obtain ⟨⟨i, hi⟩, hix⟩ := List.mem_iff_get.mp hx
  have hlen : 0 < l.length := List.length_pos.mpr hne
  have hlast : l.getLast hne = l.get ⟨l.length - 1, by omega⟩ := by
    rw [List.getLast_eq_getElem]
    rfl
  rcases Nat.lt_or_ge i (l.length - 1) with hlt2 | hge
  · have hle := (List.pairwise_iff_get.mp hs) ⟨i, hi⟩ ⟨l.length - 1, by omega⟩ hlt2
    rw [hix, ← hlast] at hle
    exact absurd (lt_of_lt_of_le hklt hle) (lt_irrefl _)
  · have hieq : i = l.length - 1 := by omega
    apply hzx
    rw [hlast, ← hix]
    congr 1
    exact (Fin.mk_eq_mk.mpr hieq).symm

/-! ## Partition lemmas: group sums against row sums -/

theorem sum_map_filter_or {α : Type} (m : α → ℚ) (p q : α → Bool) (l : List α)
    (hdisj : ∀ x ∈ l, ¬(p x = true ∧ q x = true)) :
    ((l.filter (fun x => p x || q x)).map m).sum
      = ((l.filter p).map m).sum + ((l.filter q).map m).sum := by
  induction l with
  | nil => simp
  | cons x xs ih =>
    have hx := hdisj x (by simp)
    have ih' := ih (fun y hy => hdisj y (by simp [hy]))
    cases hp : p x with
    | true =>
      cases hq : q x with
      | true => exact absurd ⟨hp, hq⟩ hx
      | false =>
        simp only [List.filter_cons, hp, hq, Bool.true_or, if_pos trivial,
          List.map_cons, List.sum_cons, ih']
        simp [List.filter_cons, hp, hq]
        ring
    | false =>
      cases hq : q x with
      | true =>
        simp [List.filter_cons, hp, hq, ih']
        ring
      | false =>
        simpa [List.filter_cons, hp, hq] using ih'

theorem mem_firstKeys {κ : Type} [DecidableEq κ] (ks : List κ) (k : κ) :
    k ∈ firstKeys ks ↔ k ∈ ks := by
  have h := DedupBy.mem_map_iff (id : κ → κ) ks k []
  simpa [firstKeys, List.map_id] using h

theorem nodup_firstKeys {κ : Type} [DecidableEq κ] (ks : List κ) :
    (firstKeys ks).Nodup := by
  have h := DedupBy.nodup_map (id : κ → κ) ks []
  simpa [firstKeys, List.map_id] using h

theorem sum_over_keys {α κ : Type} [DecidableEq κ] (f : α → κ) (m : α → ℚ)
    (l : List α) :
    ∀ (ks : List κ), ks.Nodup →
      (ks.map (fun k => sumOf m (fun x => decide (f x = k)) l)).sum
        = sumOf m (fun x => decide (f x ∈ ks)) l := by
  intro ks
  induction ks with
  | nil => intro _; simp [sumOf]
  | cons k ks ih =>
    intro hnd
    rw [List.map_cons, List.sum_cons, ih hnd.of_cons]
    have hfun : (fun x => decide (f x ∈ k :: ks))
        = fun x => (decide (f x = k) || decide (f x ∈ ks)) := by
      funext x
      simp [List.mem_cons]
    rw [show sumOf m (fun x => decide (f x ∈ k :: ks)) l
        = ((l.filter (fun x => decide (f x = k) || decide (f x ∈ ks))).map m).sum
      from by rw [sumOf, hfun]]
    rw [sum_map_filter_or]
    · rfl
    · rintro x hx ⟨h1, h2⟩
      have h1' : f x = k := of_decide_eq_true h1
      have h2' : f x ∈ ks := of_decide_eq_true h2
      exact (List.nodup_cons.mp hnd).1 (h1' ▸ h2')

/-- Grouping partitions the rows: the group sums add up to the total. -/
theorem sum_firstKeys_total {α κ : Type} [DecidableEq κ] (f : α → κ)
    (m : α → ℚ) (l : List α) :
    ((firstKeys (l.map f)).map (fun k => sumOf m (fun x => decide (f x = k)) l)).sum
      = (l.map m).sum := by
  rw [sum_over_keys f m l _ (nodup_firstKeys _)]
  rw [sumOf, List.filter_eq_self.mpr]
  intro x hx
  exact decide_eq_true ((mem_firstKeys _ _).mpr (List.mem_map_of_mem f hx))

/-- Group sums over a sublist of the keys add up to the sum over the rows
whose key satisfies the key filter. -/
theorem sum_firstKeys_filter {α κ : Type} [DecidableEq κ] (f : α → κ)
    (m : α → ℚ) (l : List α) (p : κ → Bool) :
    (((firstKeys (l.map f)).filter p).map
        (fun k => sumOf m (fun x => decide (f x = k)) l)).sum
      = sumOf m (fun x => p (f x)) l := by
  rw [sum_over_keys f m l _ ((nodup_firstKeys _).filter p)]
  unfold sumOf
  refine congrArg List.sum (congrArg (List.map m) ?_)
  apply List.filter_congr
  intro x hx
  have hmem : f x ∈ firstKeys (l.map f) :=
    (mem_firstKeys _ _).mpr (List.mem_map_of_mem f hx)
  simp [List.mem_filter, hmem]

/-! ## Row-count bookkeeping through the pipeline -/

theorem mapCol_rows_length (c : String) (f : Cell → Cell) (t : Table) :
    (mapCol c f t).rows.length = t.rows.length := by
  unfold mapCol
  cases t.cols.findIdx? (· == c) <;> simp

theorem topPrepared_rows_length (top : Table) :
    (topPrepared top).rows.length = top.rows.length := by
  unfold topPrepared topStripped
  by_cases h : "Brand" ∈ (mapCol "SKU ID" stripCell top).cols
  · simp [h, renameCol, mapCol_rows_length]
  · simp [h, mapCol_rows_length]

theorem selectCols_rows_length (cs : List String) (t : Table) :
    (selectCols cs t).rows.length = t.rows.length := by
  simp [selectCols]

theorem dropCol_rows_length (c : String) (t : Table) :
    (dropCol c t).rows.length = t.rows.length := by
  unfold dropCol
  cases t.cols.findIdx? (· == c) <;> simp

theorem setCol_rows_length (t : Table) (c : String) (vs : List Cell)
    (h : vs.length = t.rows.length) :
    (setCol t c vs).rows.length = t.rows.length := by
  unfold setCol
  cases t.cols.findIdx? (· == c) <;> simp [List.length_zip, h]

theorem reorderCols_rows_length (t : Table) :
    (reorderCols t).rows.length = t.rows.length := by
  simp [reorderCols, selectCols_rows_length]

/-- If filtering keeps `s` first, `find?` returns `s`. -/
theorem find?_of_filter_cons {α : Type} {p : α → Bool} {l : List α} {s : α}
    {ss : List α} (h : l.filter p = s :: ss) : l.find? p = some s := by
  induction l with
  | nil => simp at h
  | cons x xs ih =>
    cases hx : p x with
    | true =>
      rw [List.filter_cons_of_pos hx] at h
      rw [List.find?_cons_of_pos _ hx]
      exact congrArg some (List.cons_eq_cons.mp h).1
    | false =>
      rw [List.filter_cons_of_neg (by simp [hx])] at h
      rw [List.find?_cons_of_neg _ (by simp [hx])]
      exact ih h

theorem flatMap_eq_map {α β : Type} (F : α → List β) (G : α → β) (l : List α)
    (h : ∀ r ∈ l, F r = [G r]) : l.flatMap F = l.map G := by
  induction l with
  | nil => rfl
  | cons x xs ih =>
    simp only [List.flatMap_cons, List.map_cons,
      h x (List.mem_cons_self _ _), List.singleton_append]
    exact congrArg _ (ih (fun r hr => h r (List.mem_cons_of_mem _ hr)))

/-- When the right side's join keys are unique, the left merge produces
exactly one row per left row: the padded row on a miss, the single match
otherwise. -/
theorem leftMerge_rows_eq (lt rt : Table) (lk rk : String)
    (hnd : (rt.rows.map
      (fun s => s.getD ((rt.cols.findIdx? (· == rk)).getD 0) Cell.null)).Nodup) :
    (leftMerge lt rt lk rk).rows
      = lt.rows.map (fun r =>
          match rt.rows.find? (fun s =>
              s.getD ((rt.cols.findIdx? (· == rk)).getD 0) Cell.null
                == r.getD ((lt.cols.findIdx? (· == lk)).getD 0) Cell.null) with
          | some s => r ++ s
          | none   => r ++ rt.cols.map (fun _ => Cell.null)) := by
  unfold leftMerge
  apply flatMap_eq_map
  intro r _
  set rj := (rt.cols.findIdx? (· == rk)).getD 0 with hrj
  set lj := (lt.cols.findIdx? (· == lk)).getD 0 with hlj
  set p : List Cell → Bool :=
    fun (s : List Cell) => s.getD rj Cell.null == r.getD lj Cell.null with hp
  have hle : (rt.rows.filter p).length ≤ 1 :=
    DedupBy.length_filter_le_one (fun (s : List Cell) => s.getD rj Cell.null)
      hnd (r.getD lj Cell.null)
  cases hfil : rt.rows.filter p with
  | nil =>
    have hnone : rt.rows.find? p = none := by
      rw [List.find?_eq_none]
      intro x hx hpx
      have : x ∈ rt.rows.filter p := List.mem_filter.mpr ⟨hx, hpx⟩
      simp [hfil] at this
    simp [hfil, hnone]
  | cons s ss =>
    have hss : ss = [] := by
      have := hfil ▸ hle
      simpa using this
    subst hss
    have hfind : rt.rows.find? p = some s := find?_of_filter_cons hfil
    simp [hfil, hfind]

/-! ## Column bookkeeping of the catalog side -/

theorem mapCol_cols (c : String) (f : Cell → Cell) (t : Table) :
    (mapCol c f t).cols = t.cols := by
  unfold mapCol
  cases t.cols.findIdx? (· == c) <;> rfl

theorem dropDup_cols (c : String) (t : Table) :
    (dropDup c t).cols = t.cols := by
  unfold dropDup
  cases t.cols.findIdx? (· == c) <;> rfl

theorem flipkartStripped_cols (fl : Table) :
    (flipkartStripped fl).cols = fl.cols := mapCol_cols _ _ _

theorem flipkartUnique_cols (fl : Table) :
    (flipkartUnique fl).cols = fl.cols := by
  unfold flipkartUnique
  rw [dropDup_cols, flipkartStripped_cols]

/-- After dedup, the catalog's (trimmed) key column has pairwise distinct
values. -/
theorem flipkartUnique_keys_nodup (fl : Table)
    (h2 : "Flipkart Sku Name" ∈ fl.cols) :
    (colVals (flipkartUnique fl) "Flipkart Sku Name").Nodup := by
  unfold flipkartUnique dropDup
  cases h : (flipkartStripped fl).cols.findIdx? (· == "Flipkart Sku Name") with
  | none =>
    rw [List.findIdx?_eq_none_iff] at h
    have := h "Flipkart Sku Name" (by rw [flipkartStripped_cols]; exact h2)
    simp at this
  | some j =>
    unfold colVals cellAt
    simp only [h]
    exact DedupBy.nodup_map _ _ []

/-- The join keys of the catalog slice handed to `merge` are its
deduplicated trimmed keys. -/
theorem merge_right_keys (fl : Table) :
    ((selectCols ["Flipkart Sku Name", "Brand Manager", "Brand"]
        (flipkartUnique fl)).rows.map
      (fun s => s.getD
        (((selectCols ["Flipkart Sku Name", "Brand Manager", "Brand"]
            (flipkartUnique fl)).cols.findIdx?
          (· == "Flipkart Sku Name")).getD 0) Cell.null))
      = colVals (flipkartUnique fl) "Flipkart Sku Name" := by
  have hidx : (["Flipkart Sku Name", "Brand Manager", "Brand"].findIdx?
      (· == "Flipkart Sku Name")) = some 0 := by decide
  simp [selectCols, hidx, colVals, List.map_map]

theorem mergedTable_rows_length (fl top : Table)
    (h2 : "Flipkart Sku Name" ∈ fl.cols) :
    (mergedTable fl top).rows.length = top.rows.length := by
  unfold mergedTable
  rw [dropCol_rows_length]
  have hrn : (renameCol "Brand Manager" "Manager"
      (leftMerge (topPrepared top)
        (selectCols ["Flipkart Sku Name", "Brand Manager", "Brand"]
          (flipkartUnique fl)) "SKU ID" "Flipkart Sku Name")).rows
      = (leftMerge (topPrepared top)
        (selectCols ["Flipkart Sku Name", "Brand Manager", "Brand"]
          (flipkartUnique fl)) "SKU ID" "Flipkart Sku Name").rows := rfl
  rw [hrn, leftMerge_rows_eq _ _ _ _
    (by rw [merge_right_keys]; exact flipkartUnique_keys_nodup fl h2)]
  simp [topPrepared_rows_length]

theorem colVals_length (t : Table) (c : String) :
    (colVals t c).length = t.rows.length := by simp [colVals]

theorem withCost_rows_length (fl : Table) (cpCol : String) (t : Table) :
    (withCost fl cpCol t).rows.length = t.rows.length := by
  unfold withCost
  rw [setCol_rows_length]
  simp [colVals_length]

theorem withFns_rows_length (fl : Table) (fnsCol : String) (t : Table) :
    (withFns fl fnsCol t).rows.length = t.rows.length := by
  unfold withFns
  rw [setCol_rows_length]
  simp [colVals_length]

theorem withVendor_rows_length (fl : Table) (t : Table) :
    (withVendor fl t).rows.length = t.rows.length := by
  unfold withVendor
  rw [setCol_rows_length]
  simp [colVals_length]

theorem salesStep_rows {t t' : Table} (h : salesStep t = Except.ok t') :
    t'.rows = t.rows := by
  unfold salesStep at h
  split at h
  · exact (congrArg Table.rows (Except.ok.inj h)).symm
  · split at h
    · exact (congrArg Table.rows (Except.ok.inj h)).symm
    · split at h
      · exact (congrArg Table.rows (Except.ok.inj h)).symm
      · exact absurd h (by simp)

theorem unitsCheck_eq {t t' : Table} (h : unitsCheck t = Except.ok t') :
    t' = t := by
  unfold unitsCheck at h
  split at h
  · exact (Except.ok.inj h).symm
  · exact absurd h (by simp)

/-- C1: for every transaction table and catalog table on which the
pipeline succeeds, the enriched output has exactly one row per input
transaction row — the left join against the key-deduplicated catalog never
drops a transaction row and never duplicates one. -/
theorem claim1_join_cardinality (fl top tb : Table)
    (h : run fl top = Except.ok tb) :
    tb.rows.length = top.rows.length := by
  unfold run at h
  split at h
  · exact absurd h (by simp)
  split at h
  · exact absurd h (by simp)
  next c2 =>
  split at h
  · exact absurd h (by simp)
  split at h
  · exact absurd h (by simp)
  split at h
  · exact absurd h (by simp)
  split at h
  · exact absurd h (by simp)
  split at h
  · exact absurd h (by simp)
  next t3 hsales =>
  have h2 : "Flipkart Sku Name" ∈ fl.cols := by
    by_contra hc
    exact c2 hc
  rw [unitsCheck_eq h, salesStep_rows hsales]
  show (stripColNames _).rows.length = _
  rw [show ∀ (u : Table), (stripColNames u).rows = u.rows from fun _ => rfl,
    reorderCols_rows_length, withVendor_rows_length, withFns_rows_length,
    withCost_rows_length, mergedTable_rows_length fl top h2]

/-! ## Concrete inputs used as witnesses and counterexamples -/

instance {e a : Type} [DecidableEq e] [DecidableEq a] :
    DecidableEq (Except e a) := fun x y =>
  match x, y with
  | .ok u, .ok v =>
    if h : u = v then isTrue (by rw [h])
    else isFalse (fun hc => h (Except.ok.inj hc))
  | .error u, .error v =>
    if h : u = v then isTrue (by rw [h])
    else isFalse (fun hc => h (Except.error.inj hc))
  | .ok _, .error _ => isFalse (fun hc => Except.noConfusion hc)
  | .error _, .ok _ => isFalse (fun hc => Except.noConfusion hc)

/-- A catalog table: key, a passthrough column at position 1, manager,
brand, classification and cost columns. -/
def exCatalog : Table :=
  ⟨["Flipkart Sku Name", "Alt", "Brand Manager", "Brand", "FNS Code", "CP1"],
   [[.str "A1", .str "Z1", .str "M1", .str "B1", .str "F1", .num 10]]⟩

/-- A transaction table with one matched row (`A1`) and one unmatched row
(`A2`). -/
def exTransactions : Table :=
  ⟨["SKU ID", "Gross Units", "Final Sale Amount"],
   [[.str "A1", .num 5, .num 100], [.str "A2", .num 3, .num 30]]⟩

/-- The enriched output `run exCatalog exTransactions` evaluates to. -/
def exEnriched : Table :=
  ⟨["SKU ID", "Gross Units", "cost", "FNS", "Vendor SKU Code", "Sales",
    "Manager", "Brand"],
   [[.str "A1", .num 5, .num 10, .str "F1", .str "nan", .num 100,
     .str "M1", .str "B1"],
    [.str "A2", .num 3, .num 0, .str "", .str "nan", .num 30, .null, .null]]⟩

/-- C1 witness: on a concrete catalog and a concrete two-row transaction
table the pipeline succeeds and the enriched output has exactly the two
input rows. -/
theorem claim1_join_cardinality_witness :
    run exCatalog exTransactions = Except.ok exEnriched ∧
      exEnriched.rows.length = exTransactions.rows.length :=
  ⟨by decide, claim1_join_cardinality exCatalog exTransactions exEnriched
    (by decide)⟩

/-- A catalog with two rows sharing the trimmed key "A1" (brands B1 then
B2). -/
def exCatalogDup : Table :=
  ⟨["Flipkart Sku Name", "Alt", "Brand Manager", "Brand", "FNS Code", "CP1"],
   [[.str "A1", .str "x", .str "M1", .str "B1", .str "F1", .num 10],
    [.str "A1", .str "y", .str "M2", .str "B2", .str "F2", .num 20]]⟩

/-- A one-row transaction table with key "A1". -/
def exTransactionsA1 : Table :=
  ⟨["SKU ID", "Gross Units", "Final Sale Amount"],
   [[.str "A1", .num 5, .num 100]]⟩

/-- C4: catalog deduplication is idempotent and first-occurrence wins:
`find?` over the deduplicated rows agrees with `find?` over the original
rows for every key (so the kept row for a duplicated key is the one with
the lower original index, and its attributes are what the enrichment
lookups attach); on the concrete duplicate-key catalog, enrichment
attaches brand B1 and manager M1 from the first duplicate, not B2/M2. -/
theorem claim4_dedup_first_wins :
    (∀ (c : String) (t : Table), dropDup c (dropDup c t) = dropDup c t) ∧
    (∀ (j : ℕ) (rows : List (List Cell)) (k : Cell),
        (dedupBy (fun r => r.getD j Cell.null) [] rows).find?
            (fun r => r.getD j Cell.null == k)
          = rows.find? (fun r => r.getD j Cell.null == k)) ∧
    ((run exCatalogDup exTransactionsA1).toOption.bind
        (fun tb => getCell tb "Brand" 0) = some (.str "B1") ∧
      (run exCatalogDup exTransactionsA1).toOption.bind
        (fun tb => getCell tb "Manager" 0) = some (.str "M1")) := by
  refine ⟨?_, ?_, by decide⟩
  · intro c t
    cases h : t.cols.findIdx? (· == c) with
    | none =>
      have ht : dropDup c t = t := by
        unfold dropDup
        rw [h]
      rw [ht, ht]
    | some j =>
      have ht : dropDup c t
          = ⟨t.cols, dedupBy (fun r => r.getD j Cell.null) [] t.rows⟩ := by
        unfold dropDup
        rw [h]
      rw [ht]
      unfold dropDup
      simp only [h]
      rw [DedupBy.idem]
  · intro j rows k
    exact DedupBy.find?_eq _ rows k [] (by simp)

/-- One enriched row, used to instantiate universally quantified rollup
claims. -/
def exRows : List ERow := [⟨some "M1", some "B1", "F1", 5, 100, 10⟩]

/-- C2: in both rollups every SUBTOTAL row's measures equal the sums of
the DETAIL rows under its grouping prefix, and the GRAND_TOTAL row's
measures equal the sums over all DETAIL rows — exactly over `ℚ`, hence in
particular within the claimed 1e-6 tolerance. -/
theorem claim2_subtotal_conservation (l : List ERow) :
    (∀ s ∈ brandTotalsBF l,
        s.gu = sumOf BFRow.gu (fun d => decide (d.brand = s.brand)) (baseBF l) ∧
        s.sales = sumOf BFRow.sales (fun d => decide (d.brand = s.brand)) (baseBF l) ∧
        s.cost = sumOf BFRow.cost (fun d => decide (d.brand = s.brand)) (baseBF l)) ∧
    ((grandBF l).gu = ((baseBF l).map BFRow.gu).sum ∧
      (grandBF l).sales = ((baseBF l).map BFRow.sales).sum ∧
      (grandBF l).cost = ((baseBF l).map BFRow.cost).sum) ∧
    (∀ s ∈ brandTotalsMBF l,
        s.gu = sumOf MBFRow.gu
          (fun d => decide ((d.manager, d.brand) = (s.manager, s.brand))) (baseMBF l) ∧
        s.sales = sumOf MBFRow.sales
          (fun d => decide ((d.manager, d.brand) = (s.manager, s.brand))) (baseMBF l) ∧
        s.cost = sumOf MBFRow.cost
          (fun d => decide ((d.manager, d.brand) = (s.manager, s.brand))) (baseMBF l)) ∧
    (∀ s ∈ managerTotalsMBF l,
        s.gu = sumOf MBFRow.gu (fun d => decide (d.manager = s.manager)) (baseMBF l) ∧
        s.sales = sumOf MBFRow.sales (fun d => decide (d.manager = s.manager)) (baseMBF l) ∧
        s.cost = sumOf MBFRow.cost (fun d => decide (d.manager = s.manager)) (baseMBF l)) ∧
    ((grandMBF l).gu = ((baseMBF l).map MBFRow.gu).sum ∧
      (grandMBF l).sales = ((baseMBF l).map MBFRow.sales).sum ∧
      (grandMBF l).cost = ((baseMBF l).map MBFRow.cost).sum) := by
  refine ⟨?_, ⟨rfl, rfl, rfl⟩, ?_, ?_, ⟨rfl, rfl, rfl⟩⟩
  · intro s hs
    obtain ⟨b, hb, rfl⟩ := List.mem_map.mp hs
    exact ⟨rfl, rfl, rfl⟩
  · intro s hs
    obtain ⟨mb, hmb, rfl⟩ := List.mem_map.mp hs
    exact ⟨rfl, rfl, rfl⟩
  · intro s hs
    obtain ⟨m, hm, rfl⟩ := List.mem_map.mp hs
    exact ⟨rfl, rfl, rfl⟩

/-- C2 witness: the concrete brand subtotal of a one-row input conserves
its detail sums. -/
theorem claim2_subtotal_conservation_witness :
    (⟨some "B1", "B1 Total", (5 : ℚ), 100, 10, 1⟩ : BFRow).gu
      = sumOf BFRow.gu
          (fun d => decide (d.brand
            = (⟨some "B1", "B1 Total", (5 : ℚ), 100, 10, 1⟩ : BFRow).brand))
          (baseBF exRows) :=
  ((claim2_subtotal_conservation exRows).1 _ (by with_unfolding_all decide)).1

/-! ## The rollup base rows against the enriched rows -/

theorem baseBF_gu_sum (l : List ERow) :
    ((baseBF l).map BFRow.gu).sum = (l.map ERow.gu).sum := by
  unfold baseBF
  rw [List.map_map]
  exact sum_firstKeys_total bfKey ERow.gu l

theorem baseBF_sales_sum (l : List ERow) :
    ((baseBF l).map BFRow.sales).sum = (l.map ERow.sales).sum := by
  unfold baseBF
  rw [List.map_map]
  exact sum_firstKeys_total bfKey ERow.sales l

theorem baseBF_cost_sum (l : List ERow) :
    ((baseBF l).map BFRow.cost).sum = (l.map ERow.cost).sum := by
  unfold baseBF
  rw [List.map_map]
  exact sum_firstKeys_total bfKey ERow.cost l

theorem baseMBF_gu_sum (l : List ERow) :
    ((baseMBF l).map MBFRow.gu).sum = (l.map ERow.gu).sum := by
  unfold baseMBF
  rw [List.map_map]
  exact sum_firstKeys_total mbfKey ERow.gu l

theorem baseMBF_sales_sum (l : List ERow) :
    ((baseMBF l).map MBFRow.sales).sum = (l.map ERow.sales).sum := by
  unfold baseMBF
  rw [List.map_map]
  exact sum_firstKeys_total mbfKey ERow.sales l

theorem baseMBF_cost_sum (l : List ERow) :
    ((baseMBF l).map MBFRow.cost).sum = (l.map ERow.cost).sum := by
  unfold baseMBF
  rw [List.map_map]
  exact sum_firstKeys_total mbfKey ERow.cost l

/-- A per-manager sum over the detail rows equals the per-manager sum over
the enriched rows. -/
theorem managerSum_eq (l : List ERow) (m : String) :
    sumOf MBFRow.gu (fun d => decide (d.manager = some m)) (baseMBF l)
      = sumOf ERow.gu (fun r => decide (r.manager = some m)) l := by
  unfold sumOf baseMBF
  rw [List.filter_map, List.map_map]
  exact sum_firstKeys_filter mbfKey ERow.gu l (fun k => decide (k.1 = some m))

/-- Enriched rows whose group key is null, for the subtotal-drop
counterexample. -/
def exRowsNullMgr : List ERow := [⟨none, some "B", "F", 1, 2, 3⟩]

/-- Enriched rows with a null brand. -/
def exRowsNullBrand : List ERow := [⟨some "M", none, "F", 1, 2, 3⟩]

/-- C9 counterexample: for a single row with a null Manager, the
Manager/Brand/FNS rollup synthesizes NO subtotal rows at all — the
subtotal `groupby` calls use pandas' default `dropna=True` and drop the
null-keyed group — so the row is not "included in subtotals"; likewise a
null-brand row gets no brand subtotal in the Brand/FNS rollup.  The row
still has a DETAIL row and is in the grand total. -/
theorem claim9_null_groups_counterexample :
    managerTotalsMBF exRowsNullMgr = [] ∧
    brandTotalsMBF exRowsNullMgr = [] ∧
    (baseMBF exRowsNullMgr).length = 1 ∧
    (grandMBF exRowsNullMgr).gu = 1 ∧
    brandTotalsBF exRowsNullBrand = [] ∧
    (baseBF exRowsNullBrand).length = 1 ∧
    (grandBF exRowsNullBrand).gu = 1 := by
  with_unfolding_all decide

/-- C9 (amended): the DETAIL aggregations keep null group keys as their
own groups (`dropna=False`) and the grand totals include those rows, but
the subtotal aggregations use pandas' default `dropna=True`: a group whose
key contains a null gets no subtotal row.  Rows with null keys are
included in a parent subtotal only when the parent's own key values are
non-null (a null-brand row is still counted in its manager's subtotal). -/
theorem claim9_null_groups (l : List ERow) :
    (∀ r ∈ l, ∃ d ∈ baseBF l, d.brand = r.brand ∧ d.fns = r.fns) ∧
    ((grandBF l).gu = (l.map ERow.gu).sum ∧
      (grandBF l).sales = (l.map ERow.sales).sum ∧
      (grandBF l).cost = (l.map ERow.cost).sum) ∧
    (∀ s ∈ brandTotalsBF l, s.brand ≠ none) ∧
    (∀ r ∈ l, ∃ d ∈ baseMBF l,
        d.manager = r.manager ∧ d.brand = r.brand ∧ d.fns = r.fns) ∧
    ((grandMBF l).gu = (l.map ERow.gu).sum ∧
      (grandMBF l).sales = (l.map ERow.sales).sum ∧
      (grandMBF l).cost = (l.map ERow.cost).sum) ∧
    (∀ s ∈ managerTotalsMBF l, s.manager ≠ none) ∧
    (∀ s ∈ brandTotalsMBF l, s.manager ≠ none ∧ s.brand ≠ none) ∧
    (∀ m : String, (∃ r ∈ l, r.manager = some m) →
        ∃ s ∈ managerTotalsMBF l, s.manager = some m ∧
          s.gu = sumOf ERow.gu (fun r => decide (r.manager = some m)) l) := by
  refine ⟨?_, ⟨baseBF_gu_sum l, baseBF_sales_sum l, baseBF_cost_sum l⟩, ?_, ?_,
    ⟨baseMBF_gu_sum l, baseMBF_sales_sum l, baseMBF_cost_sum l⟩, ?_, ?_, ?_⟩
  · intro r hr
    exact ⟨_, List.mem_map_of_mem _
      ((mem_firstKeys _ _).mpr (List.mem_map_of_mem bfKey hr)), rfl, rfl⟩
  · intro s hs
    obtain ⟨b, _, rfl⟩ := List.mem_map.mp hs
    simp
  · intro r hr
    exact ⟨_, List.mem_map_of_mem _
      ((mem_firstKeys _ _).mpr (List.mem_map_of_mem mbfKey hr)), rfl, rfl, rfl⟩
  · intro s hs
    obtain ⟨m, _, rfl⟩ := List.mem_map.mp hs
    simp
  · intro s hs
    obtain ⟨mb, _, rfl⟩ := List.mem_map.mp hs
    simp
  · rintro m ⟨r, hr, hm⟩
    have hd : mbfKey r ∈ firstKeys (l.map mbfKey) :=
      (mem_firstKeys _ _).mpr (List.mem_map_of_mem mbfKey hr)
    have hbase : some m ∈ (baseMBF l).map MBFRow.manager := by
      unfold baseMBF
      rw [List.map_map]
      refine List.mem_map.mpr ⟨mbfKey r, hd, ?_⟩
      show (mbfKey r).1 = some m
      rw [show (mbfKey r).1 = r.manager from rfl, hm]
    have hks : m ∈ (firstKeys ((baseMBF l).map MBFRow.manager)).filterMap id :=
      List.mem_filterMap.mpr ⟨some m, (mem_firstKeys _ _).mpr hbase, rfl⟩
    exact ⟨_, List.mem_map_of_mem _ hks, rfl, managerSum_eq l m⟩

/-- C9 witness: on a concrete input, the manager subtotal for "M1" exists
and equals the sum over all enriched rows managed by "M1". -/
theorem claim9_null_groups_witness :
    ∃ s ∈ managerTotalsMBF exRows, s.manager = some "M1" ∧
      s.gu = sumOf ERow.gu (fun r => decide (r.manager = some "M1")) exRows :=
  (claim9_null_groups exRows).2.2.2.2.2.2.2 "M1"
    ⟨⟨some "M1", some "B1", "F1", 5, 100, 10⟩, by with_unfolding_all decide, rfl⟩

/-! ## Row shapes of the rollup pieces -/

theorem baseBF_shape {l : List ERow} {y : BFRow} (hy : y ∈ baseBF l) :
    ∃ r ∈ l, y.brand = r.brand ∧ y.fns = r.fns ∧ y.order = 0 := by
  obtain ⟨k, hk, rfl⟩ := List.mem_map.mp hy
  obtain ⟨r, hr, hkr⟩ := List.mem_map.mp ((mem_firstKeys _ _).mp hk)
  exact ⟨r, hr, by rw [← hkr]; exact ⟨rfl, rfl, rfl⟩⟩

theorem brandTotalsBF_shape {l : List ERow} {y : BFRow}
    (hy : y ∈ brandTotalsBF l) :
    ∃ b, y.brand = some b ∧ y.fns = b ++ " Total" ∧ y.order = 1 ∧
      ∃ r ∈ l, r.brand = some b := by
  obtain ⟨b, hb, rfl⟩ := List.mem_map.mp hy
  obtain ⟨o, ho, hoe⟩ := List.mem_filterMap.mp hb
  obtain ⟨d, hd, hde⟩ := List.mem_map.mp ((mem_firstKeys _ _).mp ho)
  obtain ⟨r, hr, hrb, _, _⟩ := baseBF_shape hd
  refine ⟨b, rfl, rfl, rfl, r, hr, ?_⟩
  rw [← hrb, hde]
  exact hoe

theorem baseMBF_shape {l : List ERow} {y : MBFRow} (hy : y ∈ baseMBF l) :
    ∃ r ∈ l, y.manager = r.manager ∧ y.brand = r.brand ∧ y.fns = r.fns ∧
      y.order = 0 := by
  obtain ⟨k, hk, rfl⟩ := List.mem_map.mp hy
  obtain ⟨r, hr, hkr⟩ := List.mem_map.mp ((mem_firstKeys _ _).mp hk)
  exact ⟨r, hr, by rw [← hkr]; exact ⟨rfl, rfl, rfl, rfl⟩⟩

theorem brandTotalsMBF_shape {l : List ERow} {y : MBFRow}
    (hy : y ∈ brandTotalsMBF l) :
    ∃ m b, y.manager = some m ∧ y.brand = some b ∧ y.fns = b ++ " Total" ∧
      y.order = 1 ∧ ∃ r ∈ l, r.manager = some m ∧ r.brand = some b := by
  obtain ⟨mb, hmb, rfl⟩ := List.mem_map.mp hy
  obtain ⟨p, hp, hpe⟩ := List.mem_filterMap.mp hmb
  obtain ⟨d, hd, hde⟩ := List.mem_map.mp ((mem_firstKeys _ _).mp hp)
  obtain ⟨r, hr, hrm, hrb, _, _⟩ := baseMBF_shape hd
  have hp1 : p.1 = some mb.1 ∧ p.2 = some mb.2 := by
    cases hp1 : p.1 with
    | none => rw [hp1] at hpe; simp [Option.bind] at hpe
    | some m' =>
      cases hp2 : p.2 with
      | none => rw [hp1, hp2] at hpe; simp [Option.bind] at hpe
      | some b' =>
        rw [hp1, hp2] at hpe
        simp only [Option.bind, Option.map] at hpe
        obtain ⟨h1, h2⟩ := Prod.mk.injEq .. ▸ (Option.some.inj hpe)
        exact ⟨congrArg some h1, congrArg some h2⟩
  refine ⟨mb.1, mb.2, rfl, rfl, rfl, rfl, r, hr, ?_, ?_⟩
  · rw [← hrm, show d.manager = p.1 from by rw [← hde], hp1.1]
  · rw [← hrb, show d.brand = p.2 from by rw [← hde], hp1.2]

theorem managerTotalsMBF_shape {l : List ERow} {y : MBFRow}
    (hy : y ∈ managerTotalsMBF l) :
    ∃ m, y.manager = some m ∧ y.brand = some "" ∧ y.fns = m ++ " Total" ∧
      y.order = 2 ∧ ∃ r ∈ l, r.manager = some m := by
  obtain ⟨m, hm, rfl⟩ := List.mem_map.mp hy
  obtain ⟨o, ho, hoe⟩ := List.mem_filterMap.mp hm
  obtain ⟨d, hd, hde⟩ := List.mem_map.mp ((mem_firstKeys _ _).mp ho)
  obtain ⟨r, hr, hrm, _, _, _⟩ := baseMBF_shape hd
  refine ⟨m, rfl, rfl, rfl, rfl, r, hr, ?_⟩
  rw [← hrm, hde]
  exact hoe

/-- A brand label other than "Grand" cannot produce the sentinel. -/
theorem append_total_ne {b : String} (hb : b ≠ "Grand") :
    b ++ " Total" ≠ "Grand Total" := by
  intro hc
  apply hb
  have hdata : b.data ++ " Total".data = "Grand".data ++ " Total".data := by
    have h1 : (b ++ " Total").data = b.data ++ " Total".data := rfl
    have h2 : ("Grand" ++ " Total" : String) = "Grand Total" := rfl
    rw [← h1, hc, ← h2]
    rfl
  have : b.data = "Grand".data := List.append_cancel_right hdata
  cases b
  simp_all

/-- Nonempty strings are strictly above the empty string. -/
theorem empty_lt_of_ne {s : String} (hs : s ≠ "") : "" < s := by
  rw [String.lt_iff_toList_lt]
  show ("" : String).data < s.data
  cases hcs : s.data with
  | nil =>
    exact absurd (by cases s; simp_all) hs
  | cons c cs =>
    exact List.nil_lt_cons c cs

/-- Hypothesis bundle under which the `is_grand` marker is reliable: no
enriched row's FNS value is the sentinel "Grand Total", no brand is
"Grand", and no manager is "Grand". -/
abbrev NoSentinelClash (l : List ERow) : Prop :=
  ∀ r ∈ l, r.fns ≠ "Grand Total" ∧ r.brand ≠ some "Grand" ∧
    r.manager ≠ some "Grand"

theorem isGrandBF_false_of_mem {l : List ERow} (h : NoSentinelClash l)
    {y : BFRow} (hy : y ∈ baseBF l ∨ y ∈ brandTotalsBF l) :
    isGrandBF y = false := by
  unfold isGrandBF
  rw [beq_eq_false_iff_ne]
  rcases hy with hy | hy
  · obtain ⟨r, hr, _, hfns, _⟩ := baseBF_shape hy
    rw [hfns]
    exact (h r hr).1
  · obtain ⟨b, _, hfns, _, r, hr, hrb⟩ := brandTotalsBF_shape hy
    rw [hfns]
    refine append_total_ne (fun hbg => ?_)
    exact (h r hr).2.1 (hbg ▸ hrb)

theorem isGrandMBF_false_of_mem {l : List ERow} (h : NoSentinelClash l)
    {y : MBFRow}
    (hy : y ∈ baseMBF l ∨ y ∈ brandTotalsMBF l ∨ y ∈ managerTotalsMBF l) :
    isGrandMBF y = false := by
  unfold isGrandMBF
  rw [beq_eq_false_iff_ne]
  rcases hy with hy | hy | hy
  · obtain ⟨r, hr, _, _, hfns, _⟩ := baseMBF_shape hy
    rw [hfns]
    exact (h r hr).1
  · obtain ⟨m, b, _, _, hfns, _, r, hr, _, hrb⟩ := brandTotalsMBF_shape hy
    rw [hfns]
    refine append_total_ne (fun hbg => ?_)
    exact (h r hr).2.1 (hbg ▸ hrb)
  · obtain ⟨m, _, _, hfns, _, r, hr, hrm⟩ := managerTotalsMBF_shape hy
    rw [hfns]
    refine append_total_ne (fun hmg => ?_)
    exact (h r hr).2.2 (hmg ▸ hrm)

theorem keyBF_lt_of_grand {y g : BFRow} (hy : isGrandBF y = false)
    (hg : isGrandBF g = true) : keyBF y < keyBF g := by
  unfold keyBF
  rw [hy, hg]
  exact (Prod.Lex.lt_iff _ _).mpr (Or.inl (by simp [Bool.lt_iff]))

theorem keyMBF_lt_of_grand {y g : MBFRow} (hy : isGrandMBF y = false)
    (hg : isGrandMBF g = true) : keyMBF y < keyMBF g := by
  unfold keyMBF
  rw [hy, hg]
  exact (Prod.Lex.lt_iff _ _).mpr (Or.inl (by simp [Bool.lt_iff]))

/-- An input whose FNS value is literally the sentinel "Grand Total". -/
def exRowsGT : List ERow := [⟨some "M", some "B", "Grand Total", 1, 2, 3⟩]

/-- An input whose brand is literally "Grand". -/
def exRowsGrandBrand : List ERow := [⟨some "M", some "Grand", "F", 1, 2, 3⟩]

/-- An input whose manager is literally "Grand". -/
def exRowsGrandMgr : List ERow := [⟨some "Grand", some "B", "F", 1, 2, 3⟩]

/-- C5 counterexample: the grand-total row is NOT always last.  The
`is_grand` marker is the string test `FNS == "Grand Total"`, so a detail
row whose FNS value is "Grand Total", a brand named "Grand" (whose
subtotal label becomes "Grand Total"), or a manager named "Grand" is
flagged as grand too and, sorting after the flag by the group columns,
lands after the synthesized grand-total row. -/
theorem claim5_grand_total_last_counterexample :
    (pivotBF exRowsGT).getLast? ≠ some (grandBF exRowsGT) ∧
    (pivotBF exRowsGrandBrand).getLast? ≠ some (grandBF exRowsGrandBrand) ∧
    (pivotMBF exRowsGrandMgr).getLast? ≠ some (grandMBF exRowsGrandMgr) := by
  with_unfolding_all decide

/-- C5 (amended): the synthesized GRAND_TOTAL row is the last row of both
rollup outputs for every input row order, PROVIDED no FNS value equals
"Grand Total" and no brand or manager equals "Grand" (otherwise the
string-sentinel `is_grand` marker misfires, see the counterexample). -/
theorem claim5_grand_total_last (l : List ERow) (h : NoSentinelClash l) :
    (pivotBF l).getLast? = some (grandBF l) ∧
    (pivotMBF l).getLast? = some (grandMBF l) := by
  constructor
  · refine sorted_key_getLast? (pivotBF_sorted l) ?_ ?_
    · exact mem_pivotBF.mpr (by simp [combinedBF])
    · intro y hy hne
      have hyc : y ∈ combinedBF l := mem_pivotBF.mp hy
      unfold combinedBF at hyc
      rcases List.mem_append.mp hyc with hyc | hyc
      · rcases List.mem_append.mp hyc with hyc | hyc
        · exact keyBF_lt_of_grand (isGrandBF_false_of_mem h (Or.inl hyc)) rfl
        · exact keyBF_lt_of_grand (isGrandBF_false_of_mem h (Or.inr hyc)) rfl
      · exact absurd (List.mem_singleton.mp hyc) hne
  · refine sorted_key_getLast? (pivotMBF_sorted l) ?_ ?_
    · exact mem_pivotMBF.mpr (by simp [combinedMBF])
    · intro y hy hne
      have hyc : y ∈ combinedMBF l := mem_pivotMBF.mp hy
      unfold combinedMBF at hyc
      rcases List.mem_append.mp hyc with hyc | hyc
      · rcases List.mem_append.mp hyc with hyc | hyc
        · rcases List.mem_append.mp hyc with hyc | hyc
          · exact keyMBF_lt_of_grand
              (isGrandMBF_false_of_mem h (Or.inl hyc)) rfl
          · exact keyMBF_lt_of_grand
              (isGrandMBF_false_of_mem h (Or.inr (Or.inl hyc))) rfl
        · exact keyMBF_lt_of_grand
            (isGrandMBF_false_of_mem h (Or.inr (Or.inr hyc))) rfl
      · exact absurd (List.mem_singleton.mp hyc) hne

/-- C5 witness: on a concrete sentinel-free input the grand row is last in
the Brand/FNS pivot. -/
theorem claim5_grand_total_last_witness :
    (pivotBF exRows).getLast? = some (grandBF exRows) :=
  (claim5_grand_total_last exRows (by with_unfolding_all decide)).1

theorem combinedMBF_cases {l : List ERow} {y : MBFRow}
    (hy : y ∈ combinedMBF l) :
    y ∈ baseMBF l ∨ y ∈ brandTotalsMBF l ∨ y ∈ managerTotalsMBF l ∨
      y = grandMBF l := by
  unfold combinedMBF at hy
  rcases List.mem_append.mp hy with hy | hy
  · rcases List.mem_append.mp hy with hy | hy
    · rcases List.mem_append.mp hy with hy | hy
      · exact Or.inl hy
      · exact Or.inr (Or.inl hy)
    · exact Or.inr (Or.inr (Or.inl hy))
  · exact Or.inr (Or.inr (Or.inr (List.mem_singleton.mp hy)))

theorem keyMBF_lt_of_same_group {a b : MBFRow} (hga : isGrandMBF a = false)
    (hgb : isGrandMBF b = false) (hm : a.manager = b.manager)
    (hbr : a.brand = b.brand) (ho : a.order < b.order) :
    keyMBF a < keyMBF b := by
  unfold keyMBF
  rw [hga, hgb, hm, hbr]
  refine (Prod.Lex.lt_iff _ _).mpr (Or.inr ⟨rfl, ?_⟩)
  refine (Prod.Lex.lt_iff _ _).mpr (Or.inr ⟨rfl, ?_⟩)
  refine (Prod.Lex.lt_iff _ _).mpr (Or.inr ⟨rfl, ?_⟩)
  exact (Prod.Lex.lt_iff _ _).mpr (Or.inl ho)

theorem keyMBF_lt_of_brand_lt {a b : MBFRow} (hga : isGrandMBF a = false)
    (hgb : isGrandMBF b = false) (hm : a.manager = b.manager)
    (hbr : optTop a.brand < optTop b.brand) :
    keyMBF a < keyMBF b := by
  unfold keyMBF
  rw [hga, hgb, hm]
  refine (Prod.Lex.lt_iff _ _).mpr (Or.inr ⟨rfl, ?_⟩)
  refine (Prod.Lex.lt_iff _ _).mpr (Or.inr ⟨rfl, ?_⟩)
  exact (Prod.Lex.lt_iff _ _).mpr (Or.inl hbr)

/-- A one-manager, one-brand input for the ordering claims. -/
def exRowsMB : List ERow := [⟨some "M", some "B", "F", 1, 2, 3⟩]

/-- C6 counterexample: in the Manager/Brand/FNS rollup the manager's
subtotal row does NOT come after its detail rows: its `Brand` field is set
to the empty string, which sorts before every nonempty brand, so the
subtotal (order 2) is the FIRST row of its manager block, before the
detail row (order 0) of the same manager. -/
theorem claim6_level_ordering_counterexample :
    ((pivotMBF exRowsMB).get? 0).map MBFRow.order = some 2 ∧
    ((pivotMBF exRowsMB).get? 1).map MBFRow.order = some 0 ∧
    ((pivotMBF exRowsMB).get? 0).map MBFRow.manager = some (some "M") ∧
    ((pivotMBF exRowsMB).get? 1).map MBFRow.manager = some (some "M") := by
  with_unfolding_all decide

/-- C6 (amended): in the ordered Manager/Brand/FNS rollup (without
sentinel clashes), within each (manager, brand) group the DETAIL rows
precede that group's brand-subtotal row; but the manager's own subtotal
row, whose `Brand` field is the empty string, precedes every row of that
manager carrying a nonempty brand — detail rows and brand subtotals come
AFTER their manager's subtotal line, not before it. -/
theorem claim6_level_ordering (l : List ERow) (h : NoSentinelClash l) :
    ∀ (p q : ℕ) (hp : p < (pivotMBF l).length) (hq : q < (pivotMBF l).length),
      (((pivotMBF l).get ⟨p, hp⟩).order = 0 →
        ((pivotMBF l).get ⟨q, hq⟩).order = 1 →
        ((pivotMBF l).get ⟨p, hp⟩).manager = ((pivotMBF l).get ⟨q, hq⟩).manager →
        ((pivotMBF l).get ⟨p, hp⟩).brand = ((pivotMBF l).get ⟨q, hq⟩).brand →
        p < q) ∧
      (((pivotMBF l).get ⟨p, hp⟩).order = 2 →
        ((pivotMBF l).get ⟨q, hq⟩).order ≤ 1 →
        ((pivotMBF l).get ⟨p, hp⟩).manager = ((pivotMBF l).get ⟨q, hq⟩).manager →
        (∃ s, ((pivotMBF l).get ⟨q, hq⟩).brand = some s ∧ s ≠ "") →
        p < q) := by
  intro p q hp hq
  have hamem : (pivotMBF l).get ⟨p, hp⟩ ∈ combinedMBF l :=
    mem_pivotMBF.mp ((pivotMBF l).get_mem p hp)
  have hbmem : (pivotMBF l).get ⟨q, hq⟩ ∈ combinedMBF l :=
    mem_pivotMBF.mp ((pivotMBF l).get_mem q hq)
  constructor
  · intro h0 h1 hm hbr
    have haB : (pivotMBF l).get ⟨p, hp⟩ ∈ baseMBF l := by
      rcases combinedMBF_cases hamem with h' | h' | h' | h'
      · exact h'
      · obtain ⟨_, _, _, _, _, ho1, _⟩ := brandTotalsMBF_shape h'
        omega
      · obtain ⟨_, _, _, _, ho2, _⟩ := managerTotalsMBF_shape h'
        omega
      · rw [h'] at h0
        simp [grandMBF] at h0
    have hbB : (pivotMBF l).get ⟨q, hq⟩ ∈ brandTotalsMBF l := by
      rcases combinedMBF_cases hbmem with h' | h' | h' | h'
      · obtain ⟨_, _, _, _, _, ho0⟩ := baseMBF_shape h'
        omega
      · exact h'
      · obtain ⟨_, _, _, _, ho2, _⟩ := managerTotalsMBF_shape h'
        omega
      · rw [h'] at h1
        simp [grandMBF] at h1
    refine sorted_key_index_lt (pivotMBF_sorted l) hp hq ?_
    exact keyMBF_lt_of_same_group
      (isGrandMBF_false_of_mem h (Or.inl haB))
      (isGrandMBF_false_of_mem h (Or.inr (Or.inl hbB))) hm hbr (by omega)
  · intro h2 hle hm hex
    have haM : (pivotMBF l).get ⟨p, hp⟩ ∈ managerTotalsMBF l := by
      rcases combinedMBF_cases hamem with h' | h' | h' | h'
      · obtain ⟨_, _, _, _, _, ho0⟩ := baseMBF_shape h'
        omega
      · obtain ⟨_, _, _, _, _, ho1, _⟩ := brandTotalsMBF_shape h'
        omega
      · exact h'
      · rw [h'] at h2
        simp [grandMBF] at h2
    have hbBT : (pivotMBF l).get ⟨q, hq⟩ ∈ baseMBF l ∨
        (pivotMBF l).get ⟨q, hq⟩ ∈ brandTotalsMBF l := by
      rcases combinedMBF_cases hbmem with h' | h' | h' | h'
      · exact Or.inl h'
      · exact Or.inr h'
      · obtain ⟨_, _, _, _, ho2, _⟩ := managerTotalsMBF_shape h'
        omega
      · rw [h'] at hle
        simp [grandMBF] at hle
    obtain ⟨s, hbs, hsne⟩ := hex
    obtain ⟨m, hma, hba, _, _, _⟩ := managerTotalsMBF_shape haM
    refine sorted_key_index_lt (pivotMBF_sorted l) hp hq ?_
    refine keyMBF_lt_of_brand_lt
      (isGrandMBF_false_of_mem h (Or.inr (Or.inr haM)))
      (isGrandMBF_false_of_mem h
        (hbBT.elim Or.inl (fun h' => Or.inr (Or.inl h')))) hm ?_
    rw [hba, hbs]
    exact WithTop.coe_lt_coe.mpr (empty_lt_of_ne hsne)

/-- C6 witness: on a concrete input the detail row at position 1 precedes
the brand subtotal at position 2. -/
theorem claim6_level_ordering_witness :
    ((pivotMBF exRowsMB).get? 1).map MBFRow.order = some 0 ∧ (1 : ℕ) < 2 :=
  ⟨by with_unfolding_all decide,
    (claim6_level_ordering exRowsMB (by with_unfolding_all decide) 1 2
        (by with_unfolding_all decide) (by with_unfolding_all decide)).1
      (by with_unfolding_all decide) (by with_unfolding_all decide)
      (by with_unfolding_all decide) (by with_unfolding_all decide)⟩

/-! ## Cell-level tracking through the pipeline -/

/-- Well-formedness: every row has one cell per column. -/
def Rect (t : Table) : Prop := ∀ r ∈ t.rows, r.length = t.cols.length

theorem findIdx?_beq_some {cols : List String} {c : String} {j : ℕ}
    (h : cols.findIdx? (· == c) = some j) :
    j < cols.length ∧ cols[j]? = some c := by
  obtain ⟨hlt, hp, _⟩ := List.findIdx?_eq_some_iff_getElem.mp h
  refine ⟨hlt, ?_⟩
  rw [List.getElem?_eq_getElem hlt]
  exact congrArg some (by simpa using hp)

theorem findIdx?_of_mem {cols : List String} {c : String} (h : c ∈ cols) :
    ∃ j, cols.findIdx? (· == c) = some j ∧ j < cols.length ∧
      cols[j]? = some c := by
  cases hf : cols.findIdx? (· == c) with
  | none =>
    rw [List.findIdx?_eq_none_iff] at hf
    exact absurd (hf c h) (by simp)
  | some j =>
    obtain ⟨h1, h2⟩ := findIdx?_beq_some hf
    exact ⟨j, rfl, h1, h2⟩

theorem findIdx?_congr {α : Type} {l : List α} {p q : α → Bool}
    (h : ∀ x ∈ l, p x = q x) :
    ∀ i, l.findIdx? p i = l.findIdx? q i := by
  induction l with
  | nil => intro i; rfl
  | cons x xs ih =>
    intro i
    rw [List.findIdx?_cons, List.findIdx?_cons, h x (List.mem_cons_self _ _),
      ih (fun y hy => h y (List.mem_cons_of_mem _ hy))]

theorem mem_of_getElem? {α : Type} {l : List α} {i : ℕ} {a : α}
    (h : l[i]? = some a) : a ∈ l :=
  @List.get?_mem _ l i a (by rw [List.get?_eq_getElem?]; exact h)

/-- `getCell` through `rows[i]?`. -/
theorem getCell_eq (t : Table) (c : String) (i : ℕ) :
    getCell t c i = (t.rows[i]?).map (fun r => cellAt t.cols r c) := by
  unfold getCell
  rw [List.get?_eq_getElem?]

theorem getCell_mapCol_ne {c c₀ : String} {f : Cell → Cell} {t : Table}
    {i : ℕ} (hne : c ≠ c₀) :
    getCell (mapCol c₀ f t) c i = getCell t c i := by
  unfold mapCol
  cases h₀ : t.cols.findIdx? (· == c₀) with
  | none => rfl
  | some j₀ =>
    rw [getCell_eq, getCell_eq]
    show ((t.rows.map _)[i]?).map _ = _
    rw [List.getElem?_map]
    cases hr : t.rows[i]? with
    | none => rfl
    | some r =>
      show some (cellAt t.cols (r.set j₀ _) c) = some (cellAt t.cols r c)
      unfold cellAt
      cases hc : t.cols.findIdx? (· == c) with
      | none => rfl
      | some jc =>
        have hj₀ := findIdx?_beq_some h₀
        have hjc := findIdx?_beq_some hc
        have hne' : j₀ ≠ jc := by
          intro he
          rw [he, hjc.2] at hj₀
          exact hne (Option.some.inj hj₀.2)
        show some ((r.set j₀ (f (r.getD j₀ Cell.null))).getD jc Cell.null)
          = some (r.getD jc Cell.null)
        rw [List.getD_eq_getElem?_getD, List.getD_eq_getElem?_getD,
          List.getElem?_set_ne hne', List.getD_eq_getElem?_getD]

theorem getCell_mapCol_self {c₀ : String} {f : Cell → Cell} {t : Table}
    {i : ℕ} (hrect : Rect t) (hmem : c₀ ∈ t.cols) :
    getCell (mapCol c₀ f t) c₀ i = (getCell t c₀ i).map f := by
  obtain ⟨j₀, h₀, hlt, _⟩ := findIdx?_of_mem hmem
  unfold mapCol
  rw [h₀, getCell_eq, getCell_eq]
  show ((t.rows.map _)[i]?).map _ = _
  rw [List.getElem?_map]
  cases hr : t.rows[i]? with
  | none => rfl
  | some r =>
    have hrlen : r.length = t.cols.length := hrect r (mem_of_getElem? hr)
    show some (cellAt t.cols (r.set j₀ (f (r.getD j₀ .null))) c₀)
      = some (f (cellAt t.cols r c₀))
    unfold cellAt
    rw [h₀]
    show some ((r.set j₀ (f (r.getD j₀ Cell.null))).getD j₀ Cell.null)
      = some (f (r.getD j₀ Cell.null))
    congr 1
    rw [List.getD_eq_getElem?_getD,
      List.getElem?_set_self (by omega : j₀ < r.length)]
    rfl

theorem getCell_renameCol_other {old new c : String} {t : Table} {i : ℕ}
    (hco : c ≠ old) (hcn : c ≠ new) :
    getCell (renameCol old new t) c i = getCell t c i := by
  rw [getCell_eq, getCell_eq]
  show ((t.rows[i]?).map
      (fun r => cellAt (t.cols.map (fun x => if x = old then new else x)) r c))
    = (t.rows[i]?).map (fun r => cellAt t.cols r c)
  cases hr : t.rows[i]? with
  | none => rfl
  | some r =>
    show some (cellAt (t.cols.map _) r c) = some (cellAt t.cols r c)
    congr 1
    unfold cellAt
    rw [List.findIdx?_map]
    have hfun : ((fun x => x == c) ∘ (fun x => if x = old then new else x))
        = (fun x => x == c) := by
      funext x
      by_cases hx : x = old
      · subst hx
        have h1 : (new == c) = false := by
          simp only [beq_eq_false_iff_ne, ne_eq]
          exact fun hh => hcn hh.symm
        have h2 : (x == c) = false := by
          simp only [beq_eq_false_iff_ne, ne_eq]
          exact fun hh => hco hh.symm
        simp [Function.comp, h1, h2]
      · simp [Function.comp, if_neg hx]
    rw [hfun]

theorem getCell_renameCol_new {old new : String} {t : Table} {i : ℕ}
    (hnew : new ∉ t.cols) :
    getCell (renameCol old new t) new i = getCell t old i := by
  rw [getCell_eq, getCell_eq]
  show ((t.rows[i]?).map
      (fun r => cellAt (t.cols.map (fun x => if x = old then new else x)) r new))
    = (t.rows[i]?).map (fun r => cellAt t.cols r old)
  cases hr : t.rows[i]? with
  | none => rfl
  | some r =>
    show some (cellAt (t.cols.map _) r new) = some (cellAt t.cols r old)
    congr 1
    unfold cellAt
    rw [List.findIdx?_map]
    rw [findIdx?_congr
      (p := (fun x => x == new) ∘ (fun x => if x = old then new else x))
      (q := fun x => x == old) ?_ 0]
    intro x hx
    by_cases hxo : x = old
    · subst hxo
      simp [Function.comp]
    · have hxn : x ≠ new := fun hh => hnew (hh ▸ hx)
      have h1 : (x == new) = false := by
        simp only [beq_eq_false_iff_ne, ne_eq]
        exact hxn
      have h2 : (x == old) = false := by
        simp only [beq_eq_false_iff_ne, ne_eq]
        exact hxo
      simp [Function.comp, if_neg hxo, h1, h2]

theorem getCell_selectCols {cs : List String} {t : Table} {c : String} {i : ℕ}
    (hc : c ∈ cs) :
    getCell (selectCols cs t) c i = getCell t c i := by
  rw [getCell_eq, getCell_eq]
  show ((t.rows.map (fun r => cs.map (fun c => cellAt t.cols r c)))[i]?).map
      (fun r => cellAt cs r c)
    = (t.rows[i]?).map (fun r => cellAt t.cols r c)
  rw [List.getElem?_map]
  cases hr : t.rows[i]? with
  | none => rfl
  | some r =>
    show some (cellAt cs (cs.map (fun c => cellAt t.cols r c)) c)
      = some (cellAt t.cols r c)
    congr 1
    obtain ⟨j, hj, hlt, hval⟩ := findIdx?_of_mem hc
    have hcj : cs[j] = c :=
      Option.some.inj ((List.getElem?_eq_getElem hlt).symm.trans hval)
    unfold cellAt
    rw [hj]
    show (cs.map (fun c => match t.cols.findIdx? (· == c) with
        | some j => r.getD j Cell.null
        | none => Cell.null)).getD j Cell.null
      = match t.cols.findIdx? (· == c) with
        | some j => r.getD j Cell.null
        | none => Cell.null
    rw [List.getD_eq_getElem?_getD, List.getElem?_map,
      List.getElem?_eq_getElem hlt, hcj]
    rfl

theorem zip_getElem?_none {α β : Type} {l₁ : List α} {l₂ : List β} {i : ℕ}
    (h : l₁[i]? = none) : (l₁.zip l₂)[i]? = none := by
  cases hz : (l₁.zip l₂)[i]? with
  | none => rfl
  | some p =>
    obtain ⟨h1, _⟩ := List.getElem?_zip_eq_some.mp hz
    rw [h] at h1
    exact Option.noConfusion h1

theorem getElem?_some_of_lt {α : Type} {l : List α} {i : ℕ}
    (h : i < l.length) : l[i]? = some l[i] := List.getElem?_eq_getElem h

theorem getCell_setCol_ne {t : Table} {c₀ c : String} {vs : List Cell} {i : ℕ}
    (hne : c ≠ c₀) (hrect : Rect t) (hlen : vs.length = t.rows.length) :
    getCell (setCol t c₀ vs) c i = getCell t c i := by
  unfold setCol
  cases h₀ : t.cols.findIdx? (· == c₀) with
  | some j₀ =>
    rw [getCell_eq, getCell_eq]
    show (((t.rows.zip vs).map (fun p => p.1.set j₀ p.2))[i]?).map
        (fun r => cellAt t.cols r c)
      = (t.rows[i]?).map (fun r => cellAt t.cols r c)
    rw [List.getElem?_map]
    cases hr : t.rows[i]? with
    | none => rw [zip_getElem?_none hr]; rfl
    | some r =>
      have hi : i < t.rows.length := by
        by_contra hge
        push_neg at hge
        rw [List.getElem?_eq_none hge] at hr
        exact Option.noConfusion hr
      have hv : vs[i]? = some vs[i] := getElem?_some_of_lt (by omega)
      have hz : (t.rows.zip vs)[i]? = some (r, vs[i]) :=
        List.getElem?_zip_eq_some.mpr ⟨hr, hv⟩
      rw [hz]
      show some (cellAt t.cols (r.set j₀ vs[i]) c) = some (cellAt t.cols r c)
      congr 1
      unfold cellAt
      cases hc : t.cols.findIdx? (· == c) with
      | none => rfl
      | some jc =>
        have hj₀s := findIdx?_beq_some h₀
        have hjcs := findIdx?_beq_some hc
        have hne' : j₀ ≠ jc := by
          intro he
          rw [he, hjcs.2] at hj₀s
          exact hne (Option.some.inj hj₀s.2)
        show (r.set j₀ vs[i]).getD jc Cell.null = r.getD jc Cell.null
        rw [List.getD_eq_getElem?_getD, List.getElem?_set_ne hne',
          ← List.getD_eq_getElem?_getD]
  | none =>
    rw [getCell_eq, getCell_eq]
    show (((t.rows.zip vs).map (fun p => p.1 ++ [p.2]))[i]?).map
        (fun r => cellAt (t.cols ++ [c₀]) r c)
      = (t.rows[i]?).map (fun r => cellAt t.cols r c)
    rw [List.getElem?_map]
    cases hr : t.rows[i]? with
    | none => rw [zip_getElem?_none hr]; rfl
    | some r =>
      have hi : i < t.rows.length := by
        by_contra hge
        push_neg at hge
        rw [List.getElem?_eq_none hge] at hr
        exact Option.noConfusion hr
      have hv : vs[i]? = some vs[i] := getElem?_some_of_lt (by omega)
      have hz : (t.rows.zip vs)[i]? = some (r, vs[i]) :=
        List.getElem?_zip_eq_some.mpr ⟨hr, hv⟩
      rw [hz]
      show some (cellAt (t.cols ++ [c₀]) (r ++ [vs[i]]) c)
        = some (cellAt t.cols r c)
      congr 1
      have hrlen : r.length = t.cols.length := hrect r (mem_of_getElem? hr)
      unfold cellAt
      rw [List.findIdx?_append]
      cases hcl : t.cols.findIdx? (· == c) with
      | some jc =>
        have hjcs := findIdx?_beq_some hcl
        show (r ++ [vs[i]]).getD jc Cell.null = r.getD jc Cell.null
        rw [List.getD_eq_getElem?_getD,
          List.getElem?_append_left (by omega : jc < r.length),
          ← List.getD_eq_getElem?_getD]
      | none =>
        have hone : ([c₀].findIdx? (· == c)) = none := by
          rw [List.findIdx?_cons]
          have : (c₀ == c) = false := by
            simp only [beq_eq_false_iff_ne, ne_eq]
            exact fun hh => hne hh.symm
          rw [this]
          rfl
        rw [hone]
        rfl

theorem getCell_setCol_self {t : Table} {c₀ : String} {vs : List Cell} {i : ℕ}
    (hrect : Rect t) (hlen : vs.length = t.rows.length) :
    getCell (setCol t c₀ vs) c₀ i = vs[i]? := by
  unfold setCol
  cases h₀ : t.cols.findIdx? (· == c₀) with
  | some j₀ =>
    rw [getCell_eq]
    show (((t.rows.zip vs).map (fun p => p.1.set j₀ p.2))[i]?).map
        (fun r => cellAt t.cols r c₀)
      = vs[i]?
    rw [List.getElem?_map]
    cases hr : t.rows[i]? with
    | none =>
      rw [zip_getElem?_none hr]
      have hge : t.rows.length ≤ i := by
        by_contra hlt
        push_neg at hlt
        rw [getElem?_some_of_lt hlt] at hr
        exact Option.noConfusion hr
      rw [List.getElem?_eq_none (by omega)]
      rfl
    | some r =>
      have hi : i < t.rows.length := by
        by_contra hge
        push_neg at hge
        rw [List.getElem?_eq_none hge] at hr
        exact Option.noConfusion hr
      have hv : vs[i]? = some vs[i] := getElem?_some_of_lt (by omega)
      have hz : (t.rows.zip vs)[i]? = some (r, vs[i]) :=
        List.getElem?_zip_eq_some.mpr ⟨hr, hv⟩
      rw [hz, hv]
      show some (cellAt t.cols (r.set j₀ vs[i]) c₀) = some vs[i]
      congr 1
      have hrlen : r.length = t.cols.length := hrect r (mem_of_getElem? hr)
      have hj₀s := findIdx?_beq_some h₀
      unfold cellAt
      rw [h₀]
      show (r.set j₀ vs[i]).getD j₀ Cell.null = vs[i]
      rw [List.getD_eq_getElem?_getD,
        List.getElem?_set_self (by omega : j₀ < r.length)]
      rfl
  | none =>
    rw [getCell_eq]
    show (((t.rows.zip vs).map (fun p => p.1 ++ [p.2]))[i]?).map
        (fun r => cellAt (t.cols ++ [c₀]) r c₀)
      = vs[i]?
    rw [List.getElem?_map]
    cases hr : t.rows[i]? with
    | none =>
      rw [zip_getElem?_none hr]
      have hge : t.rows.length ≤ i := by
        by_contra hlt
        push_neg at hlt
        rw [getElem?_some_of_lt hlt] at hr
        exact Option.noConfusion hr
      rw [List.getElem?_eq_none (by omega)]
      rfl
    | some r =>
      have hi : i < t.rows.length := by
        by_contra hge
        push_neg at hge
        rw [List.getElem?_eq_none hge] at hr
        exact Option.noConfusion hr
      have hv : vs[i]? = some vs[i] := getElem?_some_of_lt (by omega)
      have hz : (t.rows.zip vs)[i]? = some (r, vs[i]) :=
        List.getElem?_zip_eq_some.mpr ⟨hr, hv⟩
      rw [hz, hv]
      show some (cellAt (t.cols ++ [c₀]) (r ++ [vs[i]]) c₀) = some vs[i]
      congr 1
      have hrlen : r.length = t.cols.length := hrect r (mem_of_getElem? hr)
      unfold cellAt
      rw [List.findIdx?_append, h₀]
      have hone : ([c₀].findIdx? (· == c₀)) = some 0 := by
        rw [List.findIdx?_cons]
        have : (c₀ == c₀) = true := by simp
        rw [this]
        rfl
      rw [hone]
      show (r ++ [vs[i]]).getD (0 + t.cols.length) Cell.null = vs[i]
      rw [List.getD_eq_getElem?_getD,
        List.getElem?_append_right (by omega : r.length ≤ 0 + t.cols.length)]
      have : 0 + t.cols.length - r.length = 0 := by omega
      rw [this]
      rfl

/-- Column names the enrichment pipeline itself writes or consumes; the
hygiene hypotheses keep the transaction table clear of them. -/
def reservedCols : List String :=
  ["Flipkart Sku Name", "Brand Manager", "Manager", "Brand", "Brand1",
   "cost", "FNS", "Vendor SKU Code"]

theorem Table.eq_mk {t : Table} {cs : List String} {rs : List (List Cell)}
    (h1 : t.cols = cs) (h2 : t.rows = rs) : t = ⟨cs, rs⟩ := by
  cases t
  cases h1
  cases h2
  rfl

theorem topStripped_cols (top : Table) :
    (topStripped top).cols = top.cols := mapCol_cols _ _ _

theorem topPrepared_eq (top : Table)
    (hres : ∀ c ∈ top.cols, c ∉ reservedCols) :
    topPrepared top = topStripped top := by
  unfold topPrepared
  show (if "Brand" ∈ (topStripped top).cols then _ else topStripped top)
    = topStripped top
  rw [if_neg]
  rw [topStripped_cols]
  intro hb
  exact hres "Brand" hb (by decide)

theorem Rect_topStripped {top : Table} (hrect : Rect top) :
    Rect (topStripped top) := by
  unfold topStripped mapCol
  cases h : top.cols.findIdx? (· == "SKU ID") with
  | none => exact hrect
  | some j =>
    intro r hr
    obtain ⟨r₀, hr₀, rfl⟩ := List.mem_map.mp hr
    show (r₀.set j _).length = top.cols.length
    rw [List.length_set]
    exact hrect r₀ hr₀

theorem dropCol_eq {c : String} {t : Table} {j : ℕ}
    (h : t.cols.findIdx? (· == c) = some j) :
    dropCol c t = ⟨t.cols.eraseIdx j, t.rows.map (fun r => r.eraseIdx j)⟩ := by
  unfold dropCol
  rw [h]

theorem eraseIdx_append_self {α : Type} (r B : List α) :
    (r ++ B).eraseIdx r.length = r ++ B.eraseIdx 0 := by
  induction r with
  | nil => rfl
  | cons x xs ih =>
    show (x :: (xs ++ B)).eraseIdx (xs.length + 1) = x :: (xs ++ B.eraseIdx 0)
    rw [List.eraseIdx_cons_succ, ih]

theorem map_subst_id {cols : List String} {old new : String}
    (h : old ∉ cols) :
    cols.map (fun c => if c = old then new else c) = cols := by
  rw [List.map_congr_left (g := id), List.map_id]
  intro c hc
  rw [if_neg]
  · rfl
  · intro hco
    exact h (hco ▸ hc)

theorem findIdx?_none_of_reserved {top : Table} {c : String}
    (hres : ∀ c ∈ top.cols, c ∉ reservedCols) (hc : c ∈ reservedCols) :
    top.cols.findIdx? (· == c) = none := by
  rw [List.findIdx?_eq_none_iff]
  intro x hx
  simp only [beq_eq_false_iff_ne, ne_eq]
  intro he
  exact hres x hx (he ▸ hc)

/-- Under the hygiene hypotheses, the joined-and-trimmed table before the
cost/FNS/vendor columns is the stripped transaction table with the
catalog's `Manager` and `Brand` values (or nulls) appended to each row. -/
theorem mergedTable_eq (fl top : Table)
    (hKey : "Flipkart Sku Name" ∈ fl.cols)
    (hres : ∀ c ∈ top.cols, c ∉ reservedCols) (hrect : Rect top) :
    mergedTable fl top = ⟨top.cols ++ ["Manager", "Brand"],
      (topStripped top).rows.map (fun r =>
        r ++ (match (selectCols ["Flipkart Sku Name", "Brand Manager", "Brand"]
              (flipkartUnique fl)).rows.find?
              (fun (s : List Cell) => s.getD 0 Cell.null
                == r.getD (((topStripped top).cols.findIdx?
                  (· == "SKU ID")).getD 0) Cell.null) with
          | some s => s.tail
          | none => [Cell.null, Cell.null]))⟩ := by
  have hnd : ((selectCols ["Flipkart Sku Name", "Brand Manager", "Brand"]
      (flipkartUnique fl)).rows.map
      (fun s => s.getD (((selectCols ["Flipkart Sku Name", "Brand Manager",
        "Brand"] (flipkartUnique fl)).cols.findIdx?
          (· == "Flipkart Sku Name")).getD 0) Cell.null)).Nodup := by
    rw [merge_right_keys]
    exact flipkartUnique_keys_nodup fl hKey
  unfold mergedTable
  rw [topPrepared_eq top hres]
  have hMrows := leftMerge_rows_eq (topStripped top)
    (selectCols ["Flipkart Sku Name", "Brand Manager", "Brand"]
      (flipkartUnique fl)) "SKU ID" "Flipkart Sku Name" hnd
  have hridx : ((selectCols ["Flipkart Sku Name", "Brand Manager", "Brand"]
      (flipkartUnique fl)).cols.findIdx? (· == "Flipkart Sku Name")).getD 0
      = 0 := rfl
  rw [hridx] at hMrows
  -- the renamed merge table, componentwise
  have hrencols : (renameCol "Brand Manager" "Manager"
      (leftMerge (topStripped top)
        (selectCols ["Flipkart Sku Name", "Brand Manager", "Brand"]
          (flipkartUnique fl)) "SKU ID" "Flipkart Sku Name")).cols
      = top.cols ++ ["Flipkart Sku Name", "Manager", "Brand"] := by
    show ((topStripped top).cols
        ++ ["Flipkart Sku Name", "Brand Manager", "Brand"]).map
        (fun c => if c = "Brand Manager" then "Manager" else c)
      = _
    rw [List.map_append, topStripped_cols,
      map_subst_id (fun hbm => hres _ hbm (by decide))]
    rfl
  have hrenrows : (renameCol "Brand Manager" "Manager"
      (leftMerge (topStripped top)
        (selectCols ["Flipkart Sku Name", "Brand Manager", "Brand"]
          (flipkartUnique fl)) "SKU ID" "Flipkart Sku Name")).rows
      = (topStripped top).rows.map (fun r =>
          match (selectCols ["Flipkart Sku Name", "Brand Manager", "Brand"]
              (flipkartUnique fl)).rows.find?
              (fun (s : List Cell) => s.getD 0 Cell.null
                == r.getD (((topStripped top).cols.findIdx?
                  (· == "SKU ID")).getD 0) Cell.null) with
          | some s => r ++ s
          | none => r ++ [Cell.null, Cell.null, Cell.null]) := by
    show (leftMerge (topStripped top) _ "SKU ID" "Flipkart Sku Name").rows = _
    rw [hMrows]
    rfl
  -- dropping the joined key column
  have hdropidx : (renameCol "Brand Manager" "Manager"
      (leftMerge (topStripped top)
        (selectCols ["Flipkart Sku Name", "Brand Manager", "Brand"]
          (flipkartUnique fl)) "SKU ID" "Flipkart Sku Name")).cols.findIdx?
        (· == "Flipkart Sku Name") = some (0 + top.cols.length) := by
    rw [hrencols, List.findIdx?_append,
      findIdx?_none_of_reserved hres (by decide)]
    rfl
  rw [dropCol_eq hdropidx]
  refine Table.eq_mk ?_ ?_
  · show (renameCol "Brand Manager" "Manager" _).cols.eraseIdx
        (0 + top.cols.length)
      = top.cols ++ ["Manager", "Brand"]
    rw [hrencols, Nat.zero_add, eraseIdx_append_self]
    rfl
  · show ((renameCol "Brand Manager" "Manager" _).rows).map
        (fun r => r.eraseIdx (0 + top.cols.length))
      = _
    rw [hrenrows, List.map_map]
    apply List.map_congr_left
    intro r hr
    have hrlen : r.length = top.cols.length := by
      have := Rect_topStripped hrect r hr
      rw [topStripped_cols] at this
      exact this
    show (match (selectCols ["Flipkart Sku Name", "Brand Manager", "Brand"]
          (flipkartUnique fl)).rows.find?
          (fun (s : List Cell) => s.getD 0 Cell.null
            == r.getD (((topStripped top).cols.findIdx?
              (· == "SKU ID")).getD 0) Cell.null) with
        | some s => r ++ s
        | none => r ++ [Cell.null, Cell.null, Cell.null]).eraseIdx
        (0 + top.cols.length) = _
    rw [Nat.zero_add]
    cases hf : (selectCols ["Flipkart Sku Name", "Brand Manager", "Brand"]
        (flipkartUnique fl)).rows.find?
        (fun (s : List Cell) => s.getD 0 Cell.null
          == r.getD (((topStripped top).cols.findIdx?
            (· == "SKU ID")).getD 0) Cell.null) with
    | some s =>
      show (r ++ s).eraseIdx top.cols.length = r ++ s.tail
      rw [← hrlen, eraseIdx_append_self]
      congr 1
      exact List.eraseIdx_zero s
    | none =>
      show (r ++ [Cell.null, Cell.null, Cell.null]).eraseIdx top.cols.length
        = r ++ [Cell.null, Cell.null]
      rw [← hrlen, eraseIdx_append_self]
      rfl

theorem mem_eraseIdx_of_ne {α : Type} {l : List α} {i : ℕ} {c : α}
    (hc : c ∈ l) (hne : l[i]? ≠ some c) : c ∈ l.eraseIdx i := by
  induction l generalizing i with
  | nil => cases hc
  | cons x xs ih =>
    cases i with
    | zero =>
      rcases List.mem_cons.mp hc with rfl | hc'
      · exact absurd (by simp) hne
      · simpa [List.eraseIdx] using hc'
    | succ n =>
      rcases List.mem_cons.mp hc with rfl | hc'
      · exact List.mem_cons_self _ _
      · exact List.mem_cons_of_mem _ (ih hc' (by simpa using hne))

theorem mem_pyInsert {α : Type} {n : ℕ} {a c : α} {l : List α} :
    c ∈ pyInsert n a l ↔ c = a ∨ c ∈ l := by
  unfold pyInsert
  split
  · rw [List.mem_append, List.mem_singleton]
    tauto
  · next h =>
    push_neg at h
    rw [List.mem_insertIdx (le_of_lt h)]

theorem mem_popInsertAfter {cols : List String} {tg mv c : String} :
    c ∈ popInsertAfter cols tg mv ↔ c ∈ cols := by
  unfold popInsertAfter
  cases h1 : cols.findIdx? (· == tg) with
  | none => rfl
  | some ig =>
    cases h2 : cols.findIdx? (· == mv) with
    | none => rfl
    | some ic =>
      show c ∈ pyInsert (ig + 1) mv (cols.eraseIdx ic) ↔ c ∈ cols
      rw [mem_pyInsert]
      have hval := (findIdx?_beq_some h2).2
      constructor
      · rintro (rfl | hc)
        · exact mem_of_getElem? hval
        · exact (List.eraseIdx_sublist cols ic).mem hc
      · intro hc
        by_cases hcm : c = mv
        · exact Or.inl hcm
        · refine Or.inr (mem_eraseIdx_of_ne hc ?_)
          rw [hval]
          intro he
          exact hcm (Option.some.inj he).symm

theorem mem_vendorInsertCols {cols : List String} {c : String} :
    c ∈ vendorInsertCols cols ↔ c ∈ cols := by
  unfold vendorInsertCols
  split
  · next h =>
    have hFNS : "FNS" ∈ cols.erase "Vendor SKU Code" :=
      (List.mem_erase_of_ne (by decide)).mpr h.1
    show c ∈ (match (cols.erase "Vendor SKU Code").findIdx? (· == "FNS") with
      | some i => pyInsert (i + 1) "Vendor SKU Code"
          (cols.erase "Vendor SKU Code")
      | none => cols.erase "Vendor SKU Code") ↔ c ∈ cols
    cases h2 : (cols.erase "Vendor SKU Code").findIdx? (· == "FNS") with
    | none =>
      obtain ⟨j, hj, _, _⟩ := findIdx?_of_mem hFNS
      rw [h2] at hj
      exact Option.noConfusion hj
    | some j =>
      rw [mem_pyInsert]
      constructor
      · rintro (rfl | hc)
        · exact h.2
        · exact List.mem_of_mem_erase hc
      · intro hc
        by_cases hcv : c = "Vendor SKU Code"
        · exact Or.inl hcv
        · exact Or.inr ((List.mem_erase_of_ne hcv).mpr hc)
  · rfl

theorem getCell_reorderCols {t : Table} {c : String} {i : ℕ}
    (hc : c ∈ t.cols) :
    getCell (reorderCols t) c i = getCell t c i := by
  unfold reorderCols
  rw [getCell_selectCols, getCell_selectCols]
  · exact mem_popInsertAfter.mpr (mem_popInsertAfter.mpr hc)
  · show c ∈ vendorInsertCols (popInsertAfter
      (popInsertAfter t.cols "Gross Units" "cost") "cost" "FNS")
    exact mem_vendorInsertCols.mpr
      (mem_popInsertAfter.mpr (mem_popInsertAfter.mpr hc))

theorem stripColNames_eq {t : Table} (h : ∀ c ∈ t.cols, strTrim c = c) :
    stripColNames t = t := by
  cases t with
  | mk cs rs =>
    show (⟨cs.map strTrim, rs⟩ : Table) = ⟨cs, rs⟩
    rw [List.map_congr_left (g := id) (fun c hc => h c hc), List.map_id]

theorem getCell_salesStep {t t' : Table} (h : salesStep t = Except.ok t')
    {c : String} {i : ℕ} (h1 : c ≠ "Final Sale Amount")
    (h2 : c ≠ "Final Sales Amount") (h3 : c = "Sales" → "Sales" ∈ t.cols) :
    getCell t' c i = getCell t c i := by
  unfold salesStep at h
  split at h
  · rw [← Except.ok.inj h]
  · split at h
    · rw [← Except.ok.inj h]
      refine getCell_renameCol_other h1 ?_
      intro hc
      next hns _ => exact hns (h3 hc)
    · split at h
      · rw [← Except.ok.inj h]
        refine getCell_renameCol_other h2 ?_
        intro hc
        next hns _ _ => exact hns (h3 hc)
      · exact absurd h (by simp)

theorem colVals_getElem (t : Table) (c : String) (i : ℕ) :
    (colVals t c)[i]? = getCell t c i := by
  unfold colVals
  rw [List.getElem?_map, getCell_eq]

theorem lookupSeries_miss {t : Table} {kc vc : String} {k : Cell}
    (hkc : kc ∈ t.cols) (hmiss : k ∉ colVals t kc) :
    lookupSeries t kc vc k = Cell.null := by
  unfold lookupSeries
  obtain ⟨j, hj, hlt, hval⟩ := findIdx?_of_mem hkc
  rw [hj]
  show (match t.rows.find? (fun r => r.getD j Cell.null == k) with
    | some r => cellAt t.cols r vc
    | none => Cell.null) = Cell.null
  cases hf : t.rows.find? (fun r => r.getD j Cell.null == k) with
  | none => rfl
  | some r =>
    have hrm : r ∈ t.rows := List.mem_of_find?_eq_some hf
    have hp := List.find?_some hf
    have hrk : r.getD j Cell.null = k := by simpa using hp
    exfalso
    apply hmiss
    unfold colVals
    refine List.mem_map.mpr ⟨r, hrm, ?_⟩
    unfold cellAt
    rw [hj]
    exact hrk

theorem Rect_setCol {t : Table} {c : String} {vs : List Cell}
    (hrect : Rect t) (_hlen : vs.length = t.rows.length) :
    Rect (setCol t c vs) := by
  unfold setCol
  cases h : t.cols.findIdx? (· == c) with
  | some j =>
    intro r hr
    obtain ⟨p, hp, rfl⟩ := List.mem_map.mp hr
    show (p.1.set j p.2).length = t.cols.length
    rw [List.length_set]
    exact hrect p.1 (List.of_mem_zip hp).1
  | none =>
    intro r hr
    obtain ⟨p, hp, rfl⟩ := List.mem_map.mp hr
    show (p.1 ++ [p.2]).length = (t.cols ++ [c]).length
    rw [List.length_append, List.length_append,
      hrect p.1 (List.of_mem_zip hp).1]
    rfl

theorem setCol_cols_append {t : Table} {c : String} {vs : List Cell}
    (h : t.cols.findIdx? (· == c) = none) :
    (setCol t c vs).cols = t.cols ++ [c] := by
  unfold setCol
  rw [h]

theorem Rect_mergedTable (fl top : Table)
    (hKey : "Flipkart Sku Name" ∈ fl.cols)
    (hres : ∀ c ∈ top.cols, c ∉ reservedCols) (hrect : Rect top) :
    Rect (mergedTable fl top) := by
  rw [mergedTable_eq fl top hKey hres hrect]
  intro r hr
  obtain ⟨r₀, hr₀, rfl⟩ := List.mem_map.mp hr
  have hr₀len : r₀.length = top.cols.length := by
    have := Rect_topStripped hrect r₀ hr₀
    rwa [topStripped_cols] at this
  show (r₀ ++ _).length = (top.cols ++ ["Manager", "Brand"]).length
  rw [List.length_append, List.length_append, hr₀len]
  congr 1
  cases hf : (selectCols ["Flipkart Sku Name", "Brand Manager", "Brand"]
      (flipkartUnique fl)).rows.find?
      (fun (s : List Cell) => s.getD 0 Cell.null
        == r₀.getD (((topStripped top).cols.findIdx?
          (· == "SKU ID")).getD 0) Cell.null) with
  | none => rfl
  | some s =>
    have hs := List.mem_of_find?_eq_some hf
    obtain ⟨s₀, _, rfl⟩ := List.mem_map.mp hs
    rfl

theorem mergedTable_getCell_left (fl top : Table)
    (hKey : "Flipkart Sku Name" ∈ fl.cols)
    (hres : ∀ c ∈ top.cols, c ∉ reservedCols) (hrect : Rect top)
    {c : String} (hc : c ∈ top.cols) (i : ℕ) :
    getCell (mergedTable fl top) c i = getCell (topStripped top) c i := by
  rw [mergedTable_eq fl top hKey hres hrect, getCell_eq, getCell_eq]
  show ((List.map _ (topStripped top).rows)[i]?).map _ = _
  rw [List.getElem?_map]
  cases hr : (topStripped top).rows[i]? with
  | none => rfl
  | some r =>
    show some (cellAt (top.cols ++ ["Manager", "Brand"]) (r ++ _) c)
      = some (cellAt (topStripped top).cols r c)
    congr 1
    have hrlen : r.length = top.cols.length := by
      have := Rect_topStripped hrect r (mem_of_getElem? hr)
      rwa [topStripped_cols] at this
    obtain ⟨j, hj, hlt, hval⟩ := findIdx?_of_mem hc
    unfold cellAt
    rw [List.findIdx?_append, hj, topStripped_cols, hj]
    show (r ++ _).getD j Cell.null = r.getD j Cell.null
    rw [List.getD_eq_getElem?_getD,
      List.getElem?_append_left (by omega : j < r.length),
      ← List.getD_eq_getElem?_getD]

theorem mergedTable_getCell_unmatched (fl top : Table)
    (hKey : "Flipkart Sku Name" ∈ fl.cols)
    (hres : ∀ c ∈ top.cols, c ∉ reservedCols) (hrect : Rect top)
    (hSKU : "SKU ID" ∈ top.cols) {i : ℕ} {k : Cell}
    (hk : getCell (topStripped top) "SKU ID" i = some k)
    (hmiss : k ∉ colVals (flipkartUnique fl) "Flipkart Sku Name") :
    getCell (mergedTable fl top) "Manager" i = some Cell.null ∧
    getCell (mergedTable fl top) "Brand" i = some Cell.null := by
  obtain ⟨lj, hlj, hljlt, hljval⟩ :=
    findIdx?_of_mem ((topStripped_cols top).symm ▸ hSKU :
      "SKU ID" ∈ (topStripped top).cols)
  rw [getCell_eq] at hk
  cases hr : (topStripped top).rows[i]? with
  | none =>
    rw [hr] at hk
    exact Option.noConfusion hk
  | some r =>
    rw [hr] at hk
    have hkey : r.getD lj Cell.null = k := by
      have := Option.some.inj hk
      unfold cellAt at this
      rw [hlj] at this
      exact this
    have hrlen : r.length = top.cols.length := by
      have := Rect_topStripped hrect r (mem_of_getElem? hr)
      rwa [topStripped_cols] at this
    have hfind : (selectCols ["Flipkart Sku Name", "Brand Manager", "Brand"]
        (flipkartUnique fl)).rows.find?
        (fun (s : List Cell) => s.getD 0 Cell.null
          == r.getD (((topStripped top).cols.findIdx?
            (· == "SKU ID")).getD 0) Cell.null) = none := by
      rw [List.find?_eq_none]
      intro s hs hp
      obtain ⟨s₀, hs₀, rfl⟩ := List.mem_map.mp hs
      rw [hlj] at hp
      apply hmiss
      have hval : cellAt (flipkartUnique fl).cols s₀ "Flipkart Sku Name" = k := by
        have h1 : (["Flipkart Sku Name", "Brand Manager", "Brand"].map
            (fun c => cellAt (flipkartUnique fl).cols s₀ c)).getD 0 Cell.null
            = cellAt (flipkartUnique fl).cols s₀ "Flipkart Sku Name" := rfl
        rw [← h1, ← hkey]
        exact eq_of_beq hp
      rw [← hval]
      exact List.mem_map_of_mem _ hs₀
    rw [mergedTable_eq fl top hKey hres hrect, getCell_eq, getCell_eq]
    show (((topStripped top).rows.map _)[i]?).map _ = _ ∧
      (((topStripped top).rows.map _)[i]?).map _ = _
    rw [List.getElem?_map, hr]
    constructor
    · show some (cellAt (top.cols ++ ["Manager", "Brand"])
        (r ++ (match (selectCols ["Flipkart Sku Name", "Brand Manager",
            "Brand"] (flipkartUnique fl)).rows.find?
            (fun (s : List Cell) => s.getD 0 Cell.null
              == r.getD (((topStripped top).cols.findIdx?
                (· == "SKU ID")).getD 0) Cell.null) with
          | some s => s.tail
          | none => [Cell.null, Cell.null])) "Manager") = some Cell.null
      rw [hfind]
      congr 1
      unfold cellAt
      rw [List.findIdx?_append, findIdx?_none_of_reserved hres (by decide)]
      show (r ++ [Cell.null, Cell.null]).getD (0 + top.cols.length) Cell.null
        = Cell.null
      rw [List.getD_eq_getElem?_getD,
        List.getElem?_append_right (by omega : r.length ≤ 0 + top.cols.length)]
      have h0 : 0 + top.cols.length - r.length = 0 := by omega
      rw [h0]
      rfl
    · show some (cellAt (top.cols ++ ["Manager", "Brand"])
        (r ++ (match (selectCols ["Flipkart Sku Name", "Brand Manager",
            "Brand"] (flipkartUnique fl)).rows.find?
            (fun (s : List Cell) => s.getD 0 Cell.null
              == r.getD (((topStripped top).cols.findIdx?
                (· == "SKU ID")).getD 0) Cell.null) with
          | some s => s.tail
          | none => [Cell.null, Cell.null])) "Brand") = some Cell.null
      rw [hfind]
      congr 1
      unfold cellAt
      rw [List.findIdx?_append, findIdx?_none_of_reserved hres (by decide)]
      show (r ++ [Cell.null, Cell.null]).getD (1 + top.cols.length) Cell.null
        = Cell.null
      rw [List.getD_eq_getElem?_getD,
        List.getElem?_append_right (by omega : r.length ≤ 1 + top.cols.length)]
      have h1 : 1 + top.cols.length - r.length = 1 := by omega
      rw [h1]
      rfl

theorem findIdx?_append_none {l₁ l₂ : List String} {c : String}
    (h1 : l₁.findIdx? (· == c) = none) (h2 : l₂.findIdx? (· == c) = none) :
    (l₁ ++ l₂).findIdx? (· == c) = none := by
  rw [List.findIdx?_append, h1, h2]
  rfl

/-- The enriched table before column reordering: join plus the cost, FNS
and vendor columns (source lines 116–151). -/
def enriched (fl top : Table) (cp fns : String) : Table :=
  withVendor fl (withFns fl fns (withCost fl cp (mergedTable fl top)))

/-- Destructuring a successful run: every guard passed and the output is
the enriched table after reorder, name strip and the Sales rename. -/
theorem run_ok_elim {fl top tb : Table} (h : run fl top = Except.ok tb) :
    "SKU ID" ∈ top.cols ∧ "Flipkart Sku Name" ∈ fl.cols ∧
    ∃ cp fns : String,
      detectCp (flipkartUnique fl) = Except.ok cp ∧
      detectFns (flipkartUnique fl) = Except.ok fns ∧
      (colVals (flipkartUnique fl) (vendorKeyColOf (flipkartUnique fl))).Nodup ∧
      salesStep (stripColNames (reorderCols (enriched fl top cp fns)))
        = Except.ok tb := by
  unfold run at h
  split at h
  · exact absurd h (by simp)
  next h1 =>
  split at h
  · exact absurd h (by simp)
  next h2 =>
  split at h
  · exact absurd h (by simp)
  next cp hcp =>
  split at h
  · exact absurd h (by simp)
  next fns hfns =>
  split at h
  · exact absurd h (by simp)
  next hbm =>
  split at h
  · exact absurd h (by simp)
  next hnd =>
  split at h
  · exact absurd h (by simp)
  next t3 hsales =>
  refine ⟨not_not.mp h1, not_not.mp h2, cp, fns, hcp, hfns, not_not.mp hnd, ?_⟩
  rw [unitsCheck_eq h]
  exact hsales

theorem withVendor_cols_append {fl t : Table}
    (h : t.cols.findIdx? (· == "Vendor SKU Code") = none) :
    (withVendor fl t).cols = t.cols ++ ["Vendor SKU Code"] := by
  simp only [withVendor]
  rw [setCol_cols_append h]

theorem enriched_cols (fl top : Table) (cp fns : String)
    (hKey : "Flipkart Sku Name" ∈ fl.cols)
    (hres : ∀ c ∈ top.cols, c ∉ reservedCols) (hrect : Rect top) :
    (enriched fl top cp fns).cols
      = (((top.cols ++ ["Manager", "Brand"]) ++ ["cost"]) ++ ["FNS"])
        ++ ["Vendor SKU Code"] := by
  have hM : (mergedTable fl top).cols = top.cols ++ ["Manager", "Brand"] := by
    rw [mergedTable_eq fl top hKey hres hrect]
  have hn1 : (mergedTable fl top).cols.findIdx? (· == "cost") = none := by
    rw [hM]
    exact findIdx?_append_none
      (findIdx?_none_of_reserved hres (by decide)) (by decide)
  have h1 : (withCost fl cp (mergedTable fl top)).cols
      = (top.cols ++ ["Manager", "Brand"]) ++ ["cost"] := by
    unfold withCost
    rw [setCol_cols_append hn1, hM]
  have hn2 : (withCost fl cp (mergedTable fl top)).cols.findIdx?
      (· == "FNS") = none := by
    rw [h1]
    exact findIdx?_append_none (findIdx?_append_none
      (findIdx?_none_of_reserved hres (by decide)) (by decide)) (by decide)
  have h2 : (withFns fl fns (withCost fl cp (mergedTable fl top))).cols
      = ((top.cols ++ ["Manager", "Brand"]) ++ ["cost"]) ++ ["FNS"] := by
    unfold withFns
    rw [setCol_cols_append hn2, h1]
  have hn3 : (withFns fl fns (withCost fl cp (mergedTable fl top))).cols.findIdx?
      (· == "Vendor SKU Code") = none := by
    rw [h2]
    exact findIdx?_append_none (findIdx?_append_none (findIdx?_append_none
      (findIdx?_none_of_reserved hres (by decide)) (by decide)) (by decide))
      (by decide)
  unfold enriched
  rw [withVendor_cols_append hn3, h2]

theorem Rect_enriched (fl top : Table) (cp fns : String)
    (hKey : "Flipkart Sku Name" ∈ fl.cols)
    (hres : ∀ c ∈ top.cols, c ∉ reservedCols) (hrect : Rect top) :
    Rect (enriched fl top cp fns) := by
  have hM := Rect_mergedTable fl top hKey hres hrect
  have r1 : Rect (withCost fl cp (mergedTable fl top)) := by
    unfold withCost
    exact Rect_setCol hM (by simp [colVals_length])
  have r2 : Rect (withFns fl fns (withCost fl cp (mergedTable fl top))) := by
    unfold withFns
    exact Rect_setCol r1 (by simp [colVals_length])
  unfold enriched
  simp only [withVendor]
  exact Rect_setCol r2 (by simp [colVals_length])

theorem enriched_getCell_base (fl top : Table) (cp fns : String)
    (hKey : "Flipkart Sku Name" ∈ fl.cols)
    (hres : ∀ c ∈ top.cols, c ∉ reservedCols) (hrect : Rect top)
    {c : String} (h3 : c ≠ "cost") (h4 : c ≠ "FNS")
    (h5 : c ≠ "Vendor SKU Code") (i : ℕ) :
    getCell (enriched fl top cp fns) c i
      = getCell (mergedTable fl top) c i := by
  have hM := Rect_mergedTable fl top hKey hres hrect
  have r1 : Rect (withCost fl cp (mergedTable fl top)) := by
    unfold withCost
    exact Rect_setCol hM (by simp [colVals_length])
  have r2 : Rect (withFns fl fns (withCost fl cp (mergedTable fl top))) := by
    unfold withFns
    exact Rect_setCol r1 (by simp [colVals_length])
  unfold enriched
  simp only [withVendor]
  rw [getCell_setCol_ne h5 r2 (by simp [colVals_length])]
  unfold withFns
  rw [getCell_setCol_ne h4 r1 (by simp [colVals_length])]
  unfold withCost
  rw [getCell_setCol_ne h3 hM (by simp [colVals_length])]

theorem enriched_getCell_cost (fl top : Table) (cp fns : String)
    (hKey : "Flipkart Sku Name" ∈ fl.cols)
    (hres : ∀ c ∈ top.cols, c ∉ reservedCols) (hrect : Rect top) (i : ℕ) :
    getCell (enriched fl top cp fns) "cost" i
      = (getCell (mergedTable fl top) "SKU ID" i).map
        (fun k => fillNum0 (toNumericCell
          (lookupSeries (flipkartUnique fl) "Flipkart Sku Name" cp k))) := by
  have hM := Rect_mergedTable fl top hKey hres hrect
  have r1 : Rect (withCost fl cp (mergedTable fl top)) := by
    unfold withCost
    exact Rect_setCol hM (by simp [colVals_length])
  have r2 : Rect (withFns fl fns (withCost fl cp (mergedTable fl top))) := by
    unfold withFns
    exact Rect_setCol r1 (by simp [colVals_length])
  unfold enriched
  simp only [withVendor]
  rw [getCell_setCol_ne (by decide) r2 (by simp [colVals_length])]
  unfold withFns
  rw [getCell_setCol_ne (by decide) r1 (by simp [colVals_length])]
  unfold withCost
  rw [getCell_setCol_self hM (by simp [colVals_length])]
  rw [List.getElem?_map, colVals_getElem]

theorem enriched_getCell_fns (fl top : Table) (cp fns : String)
    (hKey : "Flipkart Sku Name" ∈ fl.cols)
    (hres : ∀ c ∈ top.cols, c ∉ reservedCols) (hrect : Rect top) (i : ℕ) :
    getCell (enriched fl top cp fns) "FNS" i
      = (getCell (mergedTable fl top) "SKU ID" i).map
        (fun k => fillStrEmpty
          (lookupSeries (flipkartUnique fl) "Flipkart Sku Name" fns k)) := by
  have hM := Rect_mergedTable fl top hKey hres hrect
  have r1 : Rect (withCost fl cp (mergedTable fl top)) := by
    unfold withCost
    exact Rect_setCol hM (by simp [colVals_length])
  have r2 : Rect (withFns fl fns (withCost fl cp (mergedTable fl top))) := by
    unfold withFns
    exact Rect_setCol r1 (by simp [colVals_length])
  unfold enriched
  simp only [withVendor]
  rw [getCell_setCol_ne (by decide) r2 (by simp [colVals_length])]
  unfold withFns
  rw [getCell_setCol_self r1 (by simp [colVals_length])]
  rw [List.getElem?_map, colVals_getElem]
  unfold withCost
  rw [getCell_setCol_ne (by decide) hM (by simp [colVals_length])]

theorem enriched_getCell_vendor (fl top : Table) (cp fns : String)
    (hKey : "Flipkart Sku Name" ∈ fl.cols)
    (hres : ∀ c ∈ top.cols, c ∉ reservedCols) (hrect : Rect top) (i : ℕ) :
    getCell (enriched fl top cp fns) "Vendor SKU Code" i
      = (getCell (mergedTable fl top) "SKU ID" i).map
        (fun k => fillStrEmpty (Cell.str (cellToStr
          (lookupSeries (flipkartUnique fl)
            (vendorKeyColOf (flipkartUnique fl))
            (vendorColOf (flipkartUnique fl)) k)))) := by
  have hM := Rect_mergedTable fl top hKey hres hrect
  have r1 : Rect (withCost fl cp (mergedTable fl top)) := by
    unfold withCost
    exact Rect_setCol hM (by simp [colVals_length])
  have r2 : Rect (withFns fl fns (withCost fl cp (mergedTable fl top))) := by
    unfold withFns
    exact Rect_setCol r1 (by simp [colVals_length])
  unfold enriched
  simp only [withVendor]
  rw [getCell_setCol_self r2 (by simp [colVals_length])]
  rw [List.getElem?_map, colVals_getElem]
  unfold withFns
  rw [getCell_setCol_ne (by decide) r1 (by simp [colVals_length])]
  unfold withCost
  rw [getCell_setCol_ne (by decide) hM (by simp [colVals_length])]

theorem reorderCols_cols (t : Table) :
    (reorderCols t).cols = vendorInsertCols (popInsertAfter
      (popInsertAfter t.cols "Gross Units" "cost") "cost" "FNS") := rfl

/-- Reading the output of a successful run at any transaction column or
pipeline column (other than the amount columns the Sales rename touches)
is reading the pre-reorder enriched table: reordering, column-name
stripping and the Sales rename do not change those cells. -/
theorem run_getCell {fl top tb : Table} {cp fns : String}
    (hres : ∀ c ∈ top.cols, c ∉ reservedCols) (hrect : Rect top)
    (htrim : ∀ c ∈ top.cols, strTrim c = c)
    (hcp : detectCp (flipkartUnique fl) = Except.ok cp)
    (hfns : detectFns (flipkartUnique fl) = Except.ok fns)
    (hrun : run fl top = Except.ok tb)
    {c : String}
    (hc : c ∈ top.cols ∨ c ∈ (["Manager", "Brand", "cost", "FNS",
      "Vendor SKU Code"] : List String))
    (h1 : c ≠ "Final Sale Amount") (h2 : c ≠ "Final Sales Amount")
    (h3 : c = "Sales" → "Sales" ∈ top.cols) (i : ℕ) :
    getCell tb c i = getCell (enriched fl top cp fns) c i := by
  obtain ⟨hSKU, hKey, cp', fns', hcp', hfns', hnd, hsales⟩ := run_ok_elim hrun
  rw [hcp] at hcp'
  rw [hfns] at hfns'
  have hceq : cp = cp' := Except.ok.inj hcp'
  have hfeq : fns = fns' := Except.ok.inj hfns'
  subst hceq
  subst hfeq
  have hEcols := enriched_cols fl top cp fns hKey hres hrect
  have hstrip : stripColNames (reorderCols (enriched fl top cp fns))
      = reorderCols (enriched fl top cp fns) := by
    apply stripColNames_eq
    intro c' hc'
    have hc'' : c' ∈ (enriched fl top cp fns).cols := by
      rw [reorderCols_cols] at hc'
      exact mem_popInsertAfter.mp (mem_popInsertAfter.mp
        (mem_vendorInsertCols.mp hc'))
    have hsplit : c' ∈ top.cols
        ∨ c' ∈ (["Manager", "Brand", "cost", "FNS",
            "Vendor SKU Code"] : List String) := by
      rw [hEcols, List.append_assoc, List.append_assoc,
        List.append_assoc] at hc''
      rcases List.mem_append.mp hc'' with h5 | h5
      · exact Or.inl h5
      · exact Or.inr (by simpa using h5)
    rcases hsplit with h4 | h4
    · exact htrim c' h4
    · simp only [List.mem_cons, List.not_mem_nil, or_false] at h4
      rcases h4 with rfl | rfl | rfl | rfl | rfl <;> decide
  rw [hstrip] at hsales
  have hcE : c ∈ (enriched fl top cp fns).cols := by
    rw [hEcols, List.append_assoc, List.append_assoc, List.append_assoc]
    rcases hc with h' | h'
    · exact List.mem_append.mpr (Or.inl h')
    · refine List.mem_append.mpr (Or.inr ?_)
      simpa using h'
  have h3r : c = "Sales" → "Sales" ∈ (reorderCols
      (enriched fl top cp fns)).cols := by
    intro hcs
    have hS : "Sales" ∈ (enriched fl top cp fns).cols := by
      rw [hEcols]
      refine List.mem_append.mpr (Or.inl ?_)
      refine List.mem_append.mpr (Or.inl ?_)
      refine List.mem_append.mpr (Or.inl ?_)
      exact List.mem_append.mpr (Or.inl (h3 hcs))
    rw [reorderCols_cols]
    exact mem_vendorInsertCols.mpr (mem_popInsertAfter.mpr
      (mem_popInsertAfter.mpr hS))
  rw [getCell_salesStep hsales h1 h2 h3r, getCell_reorderCols hcE]

/-- A transaction-side column survives the whole pipeline unchanged
(after key trimming): the output cell is the stripped input cell. -/
theorem run_getCell_top {fl top tb : Table}
    (hres : ∀ c ∈ top.cols, c ∉ reservedCols) (hrect : Rect top)
    (htrim : ∀ c ∈ top.cols, strTrim c = c)
    (hrun : run fl top = Except.ok tb)
    {c : String} (hc : c ∈ top.cols)
    (h1 : c ≠ "Final Sale Amount") (h2 : c ≠ "Final Sales Amount")
    (i : ℕ) :
    getCell tb c i = getCell (topStripped top) c i := by
  obtain ⟨hSKU, hKey, cp, fns, hcp, hfns, hnd, hsales⟩ := run_ok_elim hrun
  have hcres := hres c hc
  have hne_cost : c ≠ "cost" := fun he => hcres (by rw [he]; decide)
  have hne_fns : c ≠ "FNS" := fun he => hcres (by rw [he]; decide)
  have hne_v : c ≠ "Vendor SKU Code" := fun he => hcres (by rw [he]; decide)
  rw [run_getCell hres hrect htrim hcp hfns hrun (Or.inl hc) h1 h2
    (fun hcs => hcs ▸ hc) i]
  rw [enriched_getCell_base fl top cp fns hKey hres hrect hne_cost hne_fns
    hne_v i]
  rw [mergedTable_getCell_left fl top hKey hres hrect hc i]

/-- C3 (amended): a transaction row whose trimmed key matches no key in
the deduplicated catalog (neither in the key column nor in the vendor-map
key column) is kept in the enriched output with all its own fields, with
`cost = 0` and `FNS = ""`; but its `Manager` and `Brand` cells stay `NaN`
(not the empty string), and its `Vendor SKU Code` becomes the string
`"nan"` (not empty), because the merge fills unmatched rows with `NaN`,
only cost and FNS get `fillna`, and the vendor column is stringified
before its (then ineffective) `fillna("")`. -/
theorem claim3_missing_key {fl top tb : Table} {i : ℕ} {k : Cell}
    (hres : ∀ c ∈ top.cols, c ∉ reservedCols) (hrect : Rect top)
    (htrim : ∀ c ∈ top.cols, strTrim c = c)
    (hrun : run fl top = Except.ok tb)
    (hk : getCell (topStripped top) "SKU ID" i = some k)
    (hmiss : k ∉ colVals (flipkartUnique fl) "Flipkart Sku Name")
    (hvk : vendorKeyColOf (flipkartUnique fl) ∈ (flipkartUnique fl).cols)
    (hvmiss : k ∉ colVals (flipkartUnique fl)
      (vendorKeyColOf (flipkartUnique fl))) :
    (∀ c ∈ top.cols, c ≠ "Final Sale Amount" → c ≠ "Final Sales Amount" →
      getCell tb c i = getCell (topStripped top) c i) ∧
    getCell tb "cost" i = some (Cell.num 0) ∧
    getCell tb "FNS" i = some (Cell.str "") ∧
    getCell tb "Vendor SKU Code" i = some (Cell.str "nan") ∧
    getCell tb "Manager" i = some Cell.null ∧
    getCell tb "Brand" i = some Cell.null := by
  obtain ⟨hSKU, hKey, cp, fns, hcp, hfns, hnd, hsales⟩ := run_ok_elim hrun
  have hKfu : "Flipkart Sku Name" ∈ (flipkartUnique fl).cols := by
    rw [flipkartUnique_cols]
    exact hKey
  have hMk : getCell (mergedTable fl top) "SKU ID" i = some k := by
    rw [mergedTable_getCell_left fl top hKey hres hrect hSKU i]
    exact hk
  refine ⟨?_, ?_, ?_, ?_, ?_, ?_⟩
  · intro c hc h1 h2
    exact run_getCell_top hres hrect htrim hrun hc h1 h2 i
  · rw [@run_getCell fl top tb cp fns hres hrect htrim hcp hfns hrun "cost"
      (Or.inr (by decide)) (by decide) (by decide)
      (fun hcs => absurd hcs (by decide)) i]
    rw [enriched_getCell_cost fl top cp fns hKey hres hrect i, hMk]
    show some (fillNum0 (toNumericCell
      (lookupSeries (flipkartUnique fl) "Flipkart Sku Name" cp k)))
      = some (Cell.num 0)
    rw [lookupSeries_miss hKfu hmiss]
    rfl
  · rw [@run_getCell fl top tb cp fns hres hrect htrim hcp hfns hrun "FNS"
      (Or.inr (by decide)) (by decide) (by decide)
      (fun hcs => absurd hcs (by decide)) i]
    rw [enriched_getCell_fns fl top cp fns hKey hres hrect i, hMk]
    show some (fillStrEmpty
      (lookupSeries (flipkartUnique fl) "Flipkart Sku Name" fns k))
      = some (Cell.str "")
    rw [lookupSeries_miss hKfu hmiss]
    rfl
  · rw [@run_getCell fl top tb cp fns hres hrect htrim hcp hfns hrun
      "Vendor SKU Code" (Or.inr (by decide)) (by decide) (by decide)
      (fun hcs => absurd hcs (by decide)) i]
    rw [enriched_getCell_vendor fl top cp fns hKey hres hrect i, hMk]
    show some (fillStrEmpty (Cell.str (cellToStr
      (lookupSeries (flipkartUnique fl) (vendorKeyColOf (flipkartUnique fl))
        (vendorColOf (flipkartUnique fl)) k))))
      = some (Cell.str "nan")
    rw [lookupSeries_miss hvk hvmiss]
    rfl
  · rw [@run_getCell fl top tb cp fns hres hrect htrim hcp hfns hrun
      "Manager" (Or.inr (by decide)) (by decide) (by decide)
      (fun hcs => absurd hcs (by decide)) i]
    rw [enriched_getCell_base fl top cp fns hKey hres hrect (by decide)
      (by decide) (by decide) i]
    exact (mergedTable_getCell_unmatched fl top hKey hres hrect hSKU hk
      hmiss).1
  · rw [@run_getCell fl top tb cp fns hres hrect htrim hcp hfns hrun
      "Brand" (Or.inr (by decide)) (by decide) (by decide)
      (fun hcs => absurd hcs (by decide)) i]
    rw [enriched_getCell_base fl top cp fns hKey hres hrect (by decide)
      (by decide) (by decide) i]
    exact (mergedTable_getCell_unmatched fl top hKey hres hrect hSKU hk
      hmiss).2

/-- C3 counterexample to the claim as stated: in the concrete enriched
output the unmatched row's `Manager` and `Brand` are `NaN`, not `""`, and
its `Vendor SKU Code` is the four-character string `"nan"`, not empty. -/
theorem claim3_missing_key_counterexample :
    run exCatalog exTransactions = Except.ok exEnriched ∧
    getCell exEnriched "Manager" 1 = some Cell.null ∧
    getCell exEnriched "Manager" 1 ≠ some (Cell.str "") ∧
    getCell exEnriched "Brand" 1 = some Cell.null ∧
    getCell exEnriched "Brand" 1 ≠ some (Cell.str "") ∧
    getCell exEnriched "Vendor SKU Code" 1 = some (Cell.str "nan") ∧
    getCell exEnriched "Vendor SKU Code" 1 ≠ some (Cell.str "") := by
  decide

/-- C3 witness: the amended theorem applied to the concrete unmatched row
`A2`. -/
theorem claim3_missing_key_witness :
    getCell (topStripped exTransactions) "SKU ID" 1
        = some (Cell.str "A2") ∧
    ((∀ c ∈ exTransactions.cols, c ≠ "Final Sale Amount" →
        c ≠ "Final Sales Amount" →
        getCell exEnriched c 1 = getCell (topStripped exTransactions) c 1) ∧
      getCell exEnriched "cost" 1 = some (Cell.num 0) ∧
      getCell exEnriched "FNS" 1 = some (Cell.str "") ∧
      getCell exEnriched "Vendor SKU Code" 1 = some (Cell.str "nan") ∧
      getCell exEnriched "Manager" 1 = some Cell.null ∧
      getCell exEnriched "Brand" 1 = some Cell.null) :=
  ⟨by decide,
   @claim3_missing_key exCatalog exTransactions exEnriched 1
     (Cell.str "A2") (by decide) (by unfold Rect; decide) (by decide)
     (by decide) (by decide) (by decide) (by decide) (by decide)⟩

/-- C7 (amended): the pipeline never clamps negative unit counts — there
is no clamping step in the code at all.  The `Gross Units` cell of every
transaction row passes through enrichment unchanged, whatever its value
(negative included); the source only checks that the column exists. -/
theorem claim7_negative_units {fl top tb : Table}
    (hres : ∀ c ∈ top.cols, c ∉ reservedCols) (hrect : Rect top)
    (htrim : ∀ c ∈ top.cols, strTrim c = c)
    (hrun : run fl top = Except.ok tb)
    (hGU : "Gross Units" ∈ top.cols) (i : ℕ) (q : ℚ)
    (hq : getCell (topStripped top) "Gross Units" i = some (Cell.num q)) :
    getCell tb "Gross Units" i = some (Cell.num q) := by
  rw [run_getCell_top hres hrect htrim hrun hGU (by decide) (by decide) i]
  exact hq

/-- A one-row transaction table whose units are negative. -/
def exTransactionsNeg : Table :=
  ⟨["SKU ID", "Gross Units", "Final Sale Amount"],
   [[.str "A1", .num (-5), .num 100]]⟩

/-- The enriched output for the negative-units transaction table. -/
def exEnrichedNeg : Table :=
  ⟨["SKU ID", "Gross Units", "cost", "FNS", "Vendor SKU Code", "Sales",
    "Manager", "Brand"],
   [[.str "A1", .num (-5), .num 10, .str "F1", .str "nan", .num 100,
     .str "M1", .str "B1"]]⟩

/-- C7 counterexample to the claim as stated: a transaction with
`units = -5` is enriched successfully and its units stay `-5` — they are
not clamped to `0` (the row is also not dropped). -/
theorem claim7_negative_units_counterexample :
    run exCatalog exTransactionsNeg = Except.ok exEnrichedNeg ∧
    getCell exEnrichedNeg "Gross Units" 0 = some (Cell.num (-5)) ∧
    getCell exEnrichedNeg "Gross Units" 0 ≠ some (Cell.num 0) ∧
    exEnrichedNeg.rows.length = exTransactionsNeg.rows.length := by
  with_unfolding_all decide

/-- C7 witness: the amended pass-through theorem applied to the concrete
negative-units row. -/
theorem claim7_negative_units_witness :
    getCell (topStripped exTransactionsNeg) "Gross Units" 0
        = some (Cell.num (-5)) ∧
    getCell exEnrichedNeg "Gross Units" 0 = some (Cell.num (-5)) :=
  ⟨by with_unfolding_all decide,
   @claim7_negative_units exCatalog exTransactionsNeg exEnrichedNeg
     (by decide) (by unfold Rect; decide) (by decide)
     (by with_unfolding_all decide) (by decide) 0 (-5)
     (by with_unfolding_all decide)⟩

/-- A catalog table missing the required key column. -/
def exCatalogNoKey : Table := ⟨["Name", "CP1"], [[.str "A1", .num 1]]⟩

/-- A transaction table missing the required `SKU ID` column. -/
def exTopNoSKU : Table := ⟨["Gross Units"], [[.num 1]]⟩

/-- C8 (amended): a missing required column fails the run with an error
naming that column and no output is produced — but the transaction file's
`SKU ID` requirement is checked FIRST, before the catalog's
`Flipkart Sku Name` requirement, the opposite of the claimed
catalog-before-transaction order. -/
theorem claim8_missing_columns :
    (∀ fl top : Table, "SKU ID" ∉ top.cols →
      run fl top = Except.error
        "Top Products file me required column missing hai: 'SKU ID'") ∧
    (∀ fl top : Table, "SKU ID" ∈ top.cols → "Flipkart Sku Name" ∉ fl.cols →
      run fl top = Except.error
        "Flipkart PM file me 'Flipkart Sku Name' column missing hai.") := by
  constructor
  · intro fl top h
    unfold run
    rw [if_pos h]
  · intro fl top h1 h2
    unfold run
    rw [if_neg (not_not_intro h1), if_pos h2]

/-- C8 counterexample to the claimed check order: when BOTH files lack
their required column, the error names the transaction column, not the
catalog column — transaction-required columns are checked first. -/
theorem claim8_missing_columns_counterexample :
    run exCatalogNoKey exTopNoSKU = Except.error
      "Top Products file me required column missing hai: 'SKU ID'" ∧
    run exCatalogNoKey exTopNoSKU ≠ Except.error
      "Flipkart PM file me 'Flipkart Sku Name' column missing hai." := by
  decide

/-- C8 witness: the amended theorem applied to a concrete transaction
table with no `SKU ID` column. -/
theorem claim8_missing_columns_witness :
    "SKU ID" ∉ exTopNoSKU.cols ∧
    run exCatalog exTopNoSKU = Except.error
      "Top Products file me required column missing hai: 'SKU ID'" :=
  ⟨by decide, claim8_missing_columns.1 exCatalog exTopNoSKU (by decide)⟩

/-- The vendor enrichment as the spec reads it: keyed on the resolved
`Flipkart Sku Name` key column (compare `withVendor`, which keys on the
catalog's positional column 1). -/
def withVendorByName (fl t : Table) : Table :=
  setCol t "Vendor SKU Code" ((colVals t "SKU ID").map
    (fun k => fillStrEmpty (Cell.str (cellToStr
      (lookupSeries (flipkartUnique fl) "Flipkart Sku Name"
        (vendorColOf (flipkartUnique fl)) k)))))

/-- A minimal transaction slice for exercising the vendor lookup. -/
def exVT : Table := ⟨["SKU ID"], [[.str "A1"]]⟩

/-- A catalog whose column at positional index 1 IS the key column. -/
def exCatalogKey1 : Table :=
  ⟨["Vendor SKU", "Flipkart Sku Name", "Brand Manager", "Brand"],
   [[.str "V1", .str "A1", .str "M1", .str "B1"]]⟩

/-- C10: the vendor map is keyed by the catalog's second column
(`columns[1]`), not by the resolved key column: whenever `columns[1]`
happens to be `Flipkart Sku Name` the vendor enrichment agrees with
keying on the key column, and there is a catalog (second column ≠ key)
on which the two disagree — the vendor lookup then uses different key
values than the manager/brand/cost/FNS lookups. -/
theorem claim10_vendor_positional_key :
    (∀ fl t : Table,
      vendorKeyColOf (flipkartUnique fl) = "Flipkart Sku Name" →
      withVendor fl t = withVendorByName fl t) ∧
    (∃ fl t : Table,
      vendorKeyColOf (flipkartUnique fl) ≠ "Flipkart Sku Name" ∧
      withVendor fl t ≠ withVendorByName fl t) := by
  constructor
  · intro fl t h
    simp only [withVendor, withVendorByName]
    rw [h]
  · refine ⟨exCatalog, exVT, ?_, ?_⟩
    · decide
    · decide

/-- C10 witness: on a catalog whose second column is the key column, the
positional keying and the by-name keying produce the same table. -/
theorem claim10_vendor_positional_key_witness :
    vendorKeyColOf (flipkartUnique exCatalogKey1) = "Flipkart Sku Name" ∧
    withVendor exCatalogKey1 exVT = withVendorByName exCatalogKey1 exVT :=
  ⟨by decide,
   claim10_vendor_positional_key.1 exCatalogKey1 exVT (by decide)⟩
